import Mathlib

/-!
Shallow embedding of `cubes/model.py`, the logical-model layer of the
cubes OLAP framework: attributes, levels, hierarchies, dimensions,
cubes, model registration, default-model-provider metadata merging and
the aggregate-reference helpers.

Embedding conventions:
* Python dictionaries are association lists (`Dict`); `dset` is
  `d[k] = v`, `dupdate` is `d.update(src)`, `dget?` is `d.get(k)`.
* Python exceptions are an explicit error kind `Err` threaded through
  `Except`; built-in exceptions that the code can actually raise
  (`NameError`, `TypeError`, `AttributeError`, `KeyError`, `IndexError`)
  get their own constructors.
* Python object identity, where a claim depends on aliasing, is an
  explicit numeric id (`Dimension.id`, and an arena `LevelStore` for the
  dimension-template deep-copy logic).
* `None`-or-value slots are `Option`; Python truthiness of strings,
  lists and dicts is spelled out (`strTruthy`, `listTruthy`,
  `dictTruthy`).
-/

namespace Cubes

/-- Error kinds of `cubes/errors.py` used by `model.py`, plus the Python
built-in exceptions the code can hit. -/
inductive Err where
  | modelError
  | modelInconsistencyError
  | noSuchDimensionError
  | noSuchAttributeError
  | hierarchyError
  | argumentError
  | templateRequired (name : String)
  | nameError
  | typeError
  | attributeError
  | keyError
  | indexError
  deriving Repr, DecidableEq

/-- Python `dict` with string keys as an association list.  Keys are
unique in every state the embedded code produces. -/
abbrev Dict (α : Type) := List (String × α)

/-- `d.get(k)` / `d[k]`-lookup: first matching key. -/
def dget? {α : Type} (d : Dict α) (k : String) : Option α :=
  match d.find? (fun p => p.1 = k) with
  | some p => some p.2
  | none => none

/-- `k in d`. -/
def dcontains {α : Type} (d : Dict α) (k : String) : Bool :=
  d.any (fun p => p.1 = k)

/-- `d[k] = v`: replace the value of an existing key in place, otherwise
append the new pair at the end. -/
def dset {α : Type} (d : Dict α) (k : String) (v : α) : Dict α :=
  if d.any (fun p => p.1 = k) then
    d.map (fun p => if p.1 = k then (k, v) else p)
  else d ++ [(k, v)]

/-- `target.update(source)`: assign every pair of `source` into
`target`, in order. -/
def dupdate {α : Type} (d src : Dict α) : Dict α :=
  src.foldl (fun acc p => dset acc p.1 p.2) d

/-- Python truthiness of an optional string (`None` and `""` are
falsy). -/
def strTruthy (s : Option String) : Bool :=
  match s with
  | some v => v ≠ ""
  | none => false

/-- Python truthiness of an optional list (`None` and `[]` are falsy). -/
def listTruthy {α : Type} (l : Option (List α)) : Bool :=
  match l with
  | some v => !v.isEmpty
  | none => false

/-- Python truthiness of an optional dict (`None` and `{}` are falsy). -/
def dictTruthy {α : Type} (d : Option (Dict α)) : Bool :=
  match d with
  | some v => !v.isEmpty
  | none => false

/-! ## Aggregate reference helpers (`aggregate_ref` / `split_aggregate_ref`) -/

/-- `aggregate_ref(measure, aggregate)`: joins the two names with an
underscore (`"%s_%s"`). -/
def aggregate_ref (measure aggregate : String) : String :=
  measure ++ "_" ++ aggregate

/-- Index of the last occurrence of `c` in `l` (`str.rfind`, as an
`Option` instead of `-1`). -/
def lastIdxOf (c : Char) : List Char → Option Nat
  | [] => none
  | x :: xs =>
    match lastIdxOf c xs with
    | some i => some (i + 1)
    | none => if x = c then some 0 else none

/-- `split_aggregate_ref(measure)`: splits at the last underscore;
raises `ArgumentError` when there is no underscore or when the
underscore is the final character. -/
def split_aggregate_ref (measure : String) : Except Err (String × String) :=
  let l := measure.toList
  match lastIdxOf '_' l with
  | none => .error .argumentError
  | some r =>
    if r + 1 ≥ l.length then .error .argumentError
    else .ok ((l.take r).asString, (l.drop (r + 1)).asString)

/-! ## Attribute -/

/-- Non-owning back-reference from an attribute to its owning dimension:
the dimension's object identity plus the fields `Attribute.ref` reads.
In the source this slot holds the dimension object itself. -/
structure DimRef where
  id : Nat
  name : String
  is_flat : Bool
  has_details : Bool
  deriving Repr, DecidableEq

/-- A fact field with display/aggregation metadata (`Attribute`). -/
structure Attribute where
  name : String
  label : Option String := none
  description : Option String := none
  dimension : Option DimRef := none
  aggregations : Option (List String) := none
  info : Dict String := []
  format : Option String := none
  order : Option String := none
  locales : List String := []
  deriving Repr, DecidableEq

/-- `Attribute.__init__`: normalizes `order` — case-insensitive prefixes
of `"asc"`/`"desc"` are accepted, anything else truthy raises
`ArgumentError`; `locales=None` becomes `[]`. -/
def attributeInit (name : String) (label : Option String)
    (locales : Option (List String)) (order : Option String)
    (description : Option String) (dimension : Option DimRef)
    (aggregations : Option (List String)) (info : Dict String)
    (format : Option String) : Except Err Attribute := do
  let ord ←
    if strTruthy order then
      let o := (order.getD "").toLower
      if o.startsWith "asc" then pure (some "asc")
      else if o.startsWith "desc" then pure (some "desc")
      else throw Err.argumentError
    else pure none
  pure { name, label, description, dimension, aggregations, info, format,
         order := ord, locales := locales.getD [] }

/-- A dictionary-shaped attribute specification: the keys that
`Attribute.__init__` accepts. -/
structure AttrRecord where
  name : String
  label : Option String := none
  locales : Option (List String) := none
  order : Option String := none
  description : Option String := none
  aggregations : Option (List String) := none
  info : Dict String := []
  format : Option String := none
  deriving Repr, DecidableEq

/-- The string-or-dict-or-`Attribute` polymorphism of attribute
specifications consumed by `coalesce_attribute`. -/
inductive AttrSpec where
  | str (s : String)
  | record (r : AttrRecord)
  | attr (a : Attribute)
  deriving Repr, DecidableEq

/-- `coalesce_attribute(obj, dimension)`: a string becomes a fresh
attribute of that name, a dictionary is splatted into
`Attribute.__init__`, and an existing `Attribute` instance is returned
unchanged (the `dimension` argument is ignored for it). -/
def coalesce_attribute (obj : AttrSpec) (dimension : Option DimRef) :
    Except Err Attribute :=
  match obj with
  | .str s => attributeInit s none none none none dimension none [] none
  | .record r => attributeInit r.name r.label r.locales r.order r.description
      dimension r.aggregations r.info r.format
  | .attr a => .ok a

/-- `attribute_list(attributes, dimension)`. -/
def attribute_list (attributes : List AttrSpec) (dimension : Option DimRef) :
    Except Err (List Attribute) :=
  attributes.mapM (fun a => coalesce_attribute a dimension)

/-- The synthetic record-count measure metadata
(`RECORD_COUNT_MEASURE`). -/
def RECORD_COUNT_MEASURE : AttrRecord :=
  { name := "record", label := some "Count",
    aggregations := some ["count", "sma"] }

/-- `Attribute.ref()` with the default arguments (`simplify=True`,
`locale=None`; the locale branch, which can raise, is not taken). -/
def Attribute.ref (a : Attribute) : String :=
  match a.dimension with
  | some d =>
    if d.is_flat && !d.has_details then d.name
    else d.name ++ "." ++ a.name
  | none => a.name

/-! ## Level -/

/-- An ordered group of attributes with designated key/label/order
attributes (`Level`).  The three designated slots are `Option` because
the methods that read them guard for `None` (`Level.validate`,
`Level.__deepcopy__`); `Level.__init__` always fills them. -/
structure Level where
  name : String
  attributes : List Attribute
  key : Option Attribute := none
  label_attribute : Option Attribute := none
  order_attribute : Option Attribute := none
  order : Option String := none
  label : Option String := none
  info : Dict String := []
  deriving Repr, DecidableEq

/-- `Level.attribute(name)` lookup over a raw attribute list: first
attribute of that name, else `NoSuchAttributeError`. -/
def findAttribute (attrs : List Attribute) (name : String) :
    Except Err Attribute :=
  match attrs.find? (fun a => a.name = name) with
  | some a => .ok a
  | none => .error .noSuchAttributeError

/-- `self.attributes[0]` with the `ModelInconsistencyError` the
constructor raises when the list is empty. -/
def firstAttributeOrFail (attrs : List Attribute) : Except Err Attribute :=
  match attrs with
  | a :: _ => .ok a
  | [] => .error .modelInconsistencyError

/-- `Level.__init__`: raises `ModelError` on an empty attribute list;
key defaults to the first attribute, label attribute to the second if
present else the key, order attribute to the first; explicit names are
looked up (`NoSuchAttributeError` on a miss, re-raised with a richer
message for `order_attribute`). -/
def mkLevel (name : String) (attributes : List AttrSpec)
    (dimension : Option DimRef) (key : Option String)
    (order_attribute : Option String) (order : Option String)
    (label_attribute : Option String) (label : Option String)
    (info : Dict String) : Except Err Level :=
  if attributes.isEmpty then .error .modelError
  else
    match attribute_list attributes dimension with
    | .error e => .error e
    | .ok attrs =>
      match (if strTruthy key then findAttribute attrs (key.getD "")
             else firstAttributeOrFail attrs) with
      | .error e => .error e
      | .ok k =>
        match (if strTruthy label_attribute then
                 findAttribute attrs (label_attribute.getD "")
               else
                 match attrs with
                 | _ :: b :: _ => .ok b
                 | _ => .ok k) with
        | .error e => .error e
        | .ok la =>
          -- `coalesce_attribute(self.attributes[0], ...)` returns the
          -- attribute unchanged; the list is non-empty here.
          match (if strTruthy order_attribute then
                   findAttribute attrs (order_attribute.getD "")
                 else
                   match attrs with
                   | a :: _ => .ok a
                   | [] => .error .indexError) with
          | .error e => .error e
          | .ok oa =>
            .ok { name, attributes := attrs, key := some k,
                  label_attribute := some la, order_attribute := some oa,
                  order, label, info }

/-- `Level.has_details`: more than one attribute. -/
def Level.has_details (l : Level) : Bool :=
  l.attributes.length > 1

/-! ## Hierarchy -/

/-- An ordered sequence of levels within a dimension (`Hierarchy`), in
its resolved form: `levels` is the value sequence of the `_levels`
ordered dictionary.  The owning-dimension back-reference only feeds
error messages in the operations embedded here and is omitted. -/
structure Hierarchy where
  name : String
  levels : List Level
  label : Option String := none
  info : Dict String := []
  deriving Repr, DecidableEq

/-- `bool(hierarchy)` invokes `Hierarchy.__len__`, which touches the
`levels` property; resolving an empty level list raises
`ModelInconsistencyError` from `_set_levels`. -/
def hierTruthy (h : Hierarchy) : Except Err Bool :=
  if h.levels.isEmpty then .error .modelInconsistencyError else .ok true

/-- `Hierarchy.level_index(level)`: position of the level name in the
`_levels` key sequence; `HierarchyError` when absent. -/
def Hierarchy.level_index (h : Hierarchy) (level : String) :
    Except Err Nat :=
  match (h.levels.map (fun l => l.name)).findIdx? (fun n => n = level) with
  | some i => .ok i
  | none => .error .hierarchyError

/-- `Hierarchy.rollup(path, level)`: with a truthy `level`, truncate to
`level_index(level) + 1` entries, raising `HierarchyError` when that
exceeds the path length; with no level, drop the last entry (an empty
path stays empty). -/
def Hierarchy.rollup (h : Hierarchy) (path : List String)
    (level : Option String) : Except Err (List String) := do
  if strTruthy level then
    let i ← h.level_index (level.getD "")
    let last := i + 1
    if last > path.length then throw Err.hierarchyError
    else pure (path.take last)
  else
    if path.length > 0 then pure (path.take (path.length - 1))
    else pure []

/-- `Hierarchy.path_is_base(path)`: `path != None and len(path) ==
len(self.levels)`. -/
def Hierarchy.path_is_base (h : Hierarchy) (path : Option (List String)) :
    Bool :=
  match path with
  | none => false
  | some p => p.length == h.levels.length

/-! ## Dimension -/

/-- A dimension: ordered levels, name-keyed hierarchies, a default
hierarchy name and the `_flat_hierarchy` cache.  `id` is the Python
object identity (relevant for `Model.add_cube` and attribute
back-reference checks). -/
structure Dimension where
  id : Nat
  name : String
  levels : List Level
  hierarchies : Dict Hierarchy := []
  default_hierarchy_name : Option String := none
  flat_hierarchy : Option Hierarchy := none
  label : Option String := none
  description : Option String := none
  info : Dict String := []
  key_field : Option String := none
  deriving Repr, DecidableEq

/-- `Dimension.is_flat`: exactly one level. -/
def Dimension.is_flat (d : Dimension) : Bool :=
  d.levels.length == 1

/-- `Dimension.has_details`: some level has more than one attribute. -/
def Dimension.has_details (d : Dimension) : Bool :=
  d.levels.any (fun l => l.has_details)

/-- `Dimension._default_hierarchy` (the target of `hierarchy(None)`):
try `default_hierarchy_name` (falling back to the literal name
`"default"` when unset), else the sole hierarchy when exactly one is
defined; with no hierarchies at all, the single-level branch returns the
`_flat_hierarchy` cache if populated but otherwise evaluates
`Hierarchy(name=level.name, dimension=self, levels=[levels[0]])`, where
neither `level` nor `levels` is a bound name — Python raises
`NameError`; every remaining branch raises `ModelError`. -/
def Dimension._default_hierarchy (d : Dimension) : Except Err Hierarchy := do
  let hierarchy_name :=
    if strTruthy d.default_hierarchy_name then d.default_hierarchy_name.getD ""
    else "default"
  match dget? d.hierarchies hierarchy_name with
  | some h =>
    -- `if not hierarchy:` — a found hierarchy is truthy unless its level
    -- list is empty, in which case computing its truthiness raises.
    let _ ← hierTruthy h
    pure h
  | none =>
    match d.hierarchies with
    | [p] => pure p.2
    | [] =>
      if d.levels.length == 1 then
        match d.flat_hierarchy with
        | some h => pure h
        | none => throw Err.nameError
      else if d.levels.length > 1 then throw Err.modelError
      else throw Err.modelError
    | _ => throw Err.modelError

/-! ## Validation -/

/-- Severity tag of a validation entry: `'error'`, `'warning'` or
`'default'` (auto-corrected, informational). -/
inductive Sev where
  | error
  | warning
  | default
  deriving Repr, DecidableEq

/-- One `(severity, message)` validation record. -/
abbrev VEntry := Sev × String

/-- Inner attribute loop of `Dimension.validate`: duplicate detection by
`attribute.ref()` with a first-occurrence map, plus the
owning-dimension identity check.  The `isinstance(attribute, Attribute)`
entry cannot fire here: the embedded attribute list only holds
`Attribute`s. -/
def validateLevelAttrs (dimId : Nat) (dimName : String) (levelName : String) :
    List Attribute → List String → Dict String →
    List VEntry × List String × Dict String
  | [], seen, firstOcc => ([], seen, firstOcc)
  | a :: rest, seen, firstOcc =>
    let ref := a.ref
    let (dupEntries, seen2, firstOcc2) :=
      if seen.contains ref then
        ([(Sev.error, "Duplicate attribute " ++ ref ++ " in dimension " ++
            dimName ++ " level " ++ levelName ++ " (also defined in level " ++
            (dget? firstOcc ref).getD "" ++ ")")], seen, firstOcc)
      else ([], seen ++ [ref], dset firstOcc ref levelName)
    let backrefEntries :=
      match a.dimension with
      | some r =>
        if r.id = dimId then []
        else [(Sev.error, "Dimension of attribute " ++ a.name ++
            " does not match with owning dimension " ++ dimName)]
      | none => [(Sev.error, "Dimension of attribute " ++ a.name ++
          " does not match with owning dimension " ++ dimName)]
    let (restEntries, seen3, firstOcc3) :=
      validateLevelAttrs dimId dimName levelName rest seen2 firstOcc2
    (dupEntries ++ backrefEntries ++ restEntries, seen3, firstOcc3)

/-- Per-level loop of `Dimension.validate`: empty attribute list, key
defaulting notice, key-membership check, then the attribute loop. -/
def validateLevels (dimId : Nat) (dimName : String) :
    List Level → List String → Dict String → List VEntry
  | [], _, _ => []
  | l :: rest, seen, firstOcc =>
    if l.attributes.isEmpty then
      (Sev.error, "Level " ++ l.name ++ " in dimension " ++ dimName ++
        " has no attributes") :: validateLevels dimId dimName rest seen firstOcc
    else
      let keyDefaultEntries :=
        match l.key with
        | none =>
          match l.attributes with
          | a :: _ => [(Sev.default, "Level " ++ l.name ++ " in dimension " ++
              dimName ++ " has no key attribute specified, first attribute " ++
              "will be used: " ++ a.name)]
          | [] => []
        | some _ => []
      let keyMemberEntries :=
        match l.key with
        | some k =>
          if (l.attributes.map (fun a => a.name)).contains k.name then []
          else [(Sev.error, "Key " ++ k.name ++ " in level " ++ l.name ++
              " in dimension " ++ dimName ++ " is not in level's attribute list")]
        | none => []
      let (attrEntries, seen2, firstOcc2) :=
        validateLevelAttrs dimId dimName l.name l.attributes seen firstOcc
      keyDefaultEntries ++ keyMemberEntries ++ attrEntries ++
        validateLevels dimId dimName rest seen2 firstOcc2

/-- `Dimension.validate`: no-levels fatal entry; hierarchy presence
block (the `'default'`-tagged notice for a flat dimension with no
hierarchies); missing-default-hierarchy checks (where truthiness of a
found hierarchy can itself raise); then the level/attribute loop. -/
def Dimension.validate (d : Dimension) : Except Err (List VEntry) := do
  if d.levels.isEmpty then
    pure [(Sev.error, "No levels in dimension " ++ d.name)]
  else do
    let hierEntries :=
      if d.hierarchies.isEmpty then
        let msg := "No hierarchies in dimension " ++ d.name
        if d.is_flat then
          match d.levels with
          | l :: _ => [(Sev.default, msg ++ ", flat level " ++ l.name ++
              " will be used")]
          | [] => []
        else if d.levels.length > 1 then
          [(Sev.error, msg ++ ", more than one levels exist")]
        else [(Sev.error, msg)]
      else
        if !(strTruthy d.default_hierarchy_name) then
          if d.hierarchies.length > 1 && !(dcontains d.hierarchies "default") then
            [(Sev.error, "No defaut hierarchy specified, there is more " ++
              "than one hierarchy in dimension " ++ d.name)]
          else []
        else []
    let dhnEntries ←
      if strTruthy d.default_hierarchy_name then
        match dget? d.hierarchies (d.default_hierarchy_name.getD "") with
        | none => pure [(Sev.error, "Default hierarchy " ++
            d.default_hierarchy_name.getD "" ++ " does not exist in dimension " ++
            d.name)]
        | some h => do
          let _ ← hierTruthy h
          pure ([] : List VEntry)
      else pure ([] : List VEntry)
    pure (hierEntries ++ dhnEntries ++ validateLevels d.id d.name d.levels [] [])

/-! ## Cube -/

/-- A cube: measures, details, owned dimensions (name-unique), pending
`linked_dimensions` names and physical metadata. -/
structure Cube where
  name : String
  measures : List Attribute := []
  details : List Attribute := []
  dimensions : List Dimension := []
  linked_dimensions : List String := []
  mappings : Option (Dict String) := none
  joins : Option (List (Dict String)) := none
  fact : Option String := none
  key : Option String := none
  browser_options : Dict String := []
  datastore : Option String := none
  label : Option String := none
  description : Option String := none
  info : Dict String := []
  category : Option String := none
  deriving Repr, DecidableEq

/-- `Cube.add_dimension`: `ModelError` on a duplicate dimension name
(the `isinstance` guard cannot fire in the typed embedding). -/
def Cube.add_dimension (c : Cube) (d : Dimension) : Except Err Cube :=
  if c.dimensions.any (fun d0 => d0.name = d.name) then .error .modelError
  else .ok { c with dimensions := c.dimensions ++ [d] }

/-- `Cube.__init__` (the construction logic the claims touch): a falsy
`measures` argument is replaced by a deep copy of
`RECORD_COUNT_MEASURE`; measures and details run through
`attribute_list`; `category` falls back to `info["category"]`;
dimensions are added one by one. -/
def mkCube (name : String) (dimensions : Option (List Dimension))
    (measures : Option (List AttrSpec)) (details : Option (List AttrSpec))
    (linked_dimensions : Option (List String)) (info : Option (Dict String))
    (category : Option String) : Except Err Cube := do
  let info := info.getD []
  let category := if strTruthy category then category else dget? info "category"
  let ms :=
    match measures with
    | none => [AttrSpec.record RECORD_COUNT_MEASURE]
    | some [] => [AttrSpec.record RECORD_COUNT_MEASURE]
    | some l => l
  let measures ← attribute_list ms none
  let details ← attribute_list (match details with | none => [] | some l => l) none
  let c0 : Cube := { name, measures, details,
                     linked_dimensions := linked_dimensions.getD [],
                     info, category }
  match dimensions with
  | some ds => ds.foldlM Cube.add_dimension c0
  | none => pure c0

/-- Measure loop of `Cube.validate`: duplicate measure names by
`str(measure)`; returns the entries and the collected name set. -/
def cubeValidateMeasures (cubeName : String) :
    List Attribute → List String → List VEntry × List String
  | [], seen => ([], seen)
  | m :: rest, seen =>
    let (es, seen2) :=
      if seen.contains m.name then
        ([(Sev.error, "Duplicate measure " ++ m.name ++ " in cube " ++
            cubeName)], seen)
      else ([], seen ++ [m.name])
    let (restEs, seen3) := cubeValidateMeasures cubeName rest seen2
    (es ++ restEs, seen3)

/-- Detail loop of `Cube.validate`: duplicate detail names, and details
that collide with a measure name. -/
def cubeValidateDetails (cubeName : String) (measures : List String) :
    List Attribute → List String → List VEntry
  | [], _ => []
  | d :: rest, seen =>
    if seen.contains d.name then
      (Sev.error, "Duplicate detail " ++ d.name ++ " in cube " ++ cubeName) ::
        cubeValidateDetails cubeName measures rest seen
    else if measures.contains d.name then
      (Sev.error, "Duplicate detail " ++ d.name ++ " in cube " ++ cubeName ++
        " - specified also as measure") ::
        cubeValidateDetails cubeName measures rest seen
    else cubeValidateDetails cubeName measures rest (seen ++ [d.name])

/-- `Cube.validate` (the `isinstance` entries cannot fire in the typed
embedding). -/
def Cube.validate (c : Cube) : List VEntry :=
  let (mEntries, mSeen) := cubeValidateMeasures c.name c.measures []
  mEntries ++ cubeValidateDetails c.name mSeen c.details []

/-! ## Model -/

/-- A model: name-unique dimensions and name-keyed cubes. -/
structure Model where
  name : Option String := none
  dimensions : List Dimension := []
  cubes : Dict Cube := []
  label : Option String := none
  description : Option String := none
  info : Dict String := []
  locale : Option String := none
  deriving Repr, DecidableEq

/-- `Model.add_dimension`: `ModelInconsistencyError` on an exact name
collision. -/
def Model.add_dimension (m : Model) (d : Dimension) : Except Err Model :=
  if m.dimensions.any (fun d0 => d0.name = d.name) then
    .error .modelInconsistencyError
  else .ok { m with dimensions := m.dimensions ++ [d] }

/-- The dimension loop of `Model.add_cube`.  `my_dimensions` is a `set`
of dimension objects whose elements hash by object identity (the class
defines `__eq__` but no `__hash__`), so membership is an id check; both
snapshots are taken before the loop and not refreshed. -/
def addCubeDims (myIds : List Nat) (myNames : List String) :
    Model → List Dimension → Except Err Model
  | m, [] => .ok m
  | m, d :: rest =>
    if myIds.contains d.id then addCubeDims myIds myNames m rest
    else if !(myNames.contains d.name) then
      match m.add_dimension d with
      | .ok m2 => addCubeDims myIds myNames m2 rest
      | .error e => .error e
    else .error .modelInconsistencyError

/-- `Model.add_cube`: register the cube's dimensions per `addCubeDims`,
then store the cube under its name. -/
def Model.add_cube (m : Model) (c : Cube) : Except Err Model := do
  let m2 ← addCubeDims (m.dimensions.map (fun d => d.id))
      (m.dimensions.map (fun d => d.name)) m c.dimensions
  pure { m2 with cubes := dset m2.cubes c.name c }

/-- `Model.validate`: dimension results then cube results (a model with
no cubes yields the `'warning'` entry).  The
`issubclass(dim.__class__, Dimension)` short-circuit cannot fire here:
the embedded dimension sequence only holds `Dimension`s. -/
def Model.validate (m : Model) : Except Err (List VEntry) := do
  let dimResults ← m.dimensions.foldlM
    (fun acc d => do pure (acc ++ (← d.validate))) ([] : List VEntry)
  let cubeResults :=
    if m.cubes.isEmpty then [(Sev.warning, "No cubes defined")]
    else (m.cubes.map (fun p => p.2.validate)).flatten
  pure (dimResults ++ cubeResults)

/-- `Model.is_valid(strict)`: `True` on an empty result list; otherwise
`False` immediately when `strict`, else `False` exactly when some entry
is tagged `'error'`. -/
def Model.is_valid (m : Model) (strict : Bool) : Except Err Bool := do
  let results ← m.validate
  if results.isEmpty then pure true
  else if strict then pure false
  else pure (!(results.any (fun r => r.1 == Sev.error)))

/-! ## DefaultModelProvider metadata merging -/

/-- A join specification: an opaque field dictionary (the merge logic
only ever reads the `"name"` field and copies the rest). -/
abbrev Join := Dict String

/-- The `model_join_map` loop of `DefaultModelProvider.cube`: index the
model-level joins by their `"name"` value, raising `ModelError` for a
join without the key and for a duplicated name. -/
def buildJoinMap : List Join → List (String × Join) →
    Except Err (List (String × Join))
  | [], acc => .ok acc
  | j :: rest, acc =>
    match dget? j "name" with
    | none => .error .modelError
    | some n =>
      if acc.any (fun p => p.1 = n) then .error .modelError
      else buildJoinMap rest (acc ++ [(n, j)])

/-- A reference appended to `merged_joins`: either a fresh dictionary
(`model_join_map.get(...)` missed and returned a new `{}` that was then
updated with the cube join) or an alias of the map entry for a name
(`.get` returned the stored object itself). -/
inductive JoinRef where
  | fresh (j : Join)
  | named (n : String)
  deriving Repr, DecidableEq

/-- The `for join in cube_joins` loop of `DefaultModelProvider.cube`:
`model_join = model_join_map.get(join.get('name'), {})` followed by the
in-place `model_join.update(join)`.  A map hit mutates the stored entry
(so a later cube join with the same name sees — and appends another
alias of — the already-updated object); a miss updates a fresh
dictionary that the map never sees. -/
def mergeJoinsLoop : List Join → Dict Join → List JoinRef × Dict Join
  | [], jmap => ([], jmap)
  | j :: rest, jmap =>
    match dget? j "name" with
    | some n =>
      match dget? jmap n with
      | some mjoin =>
        let pr := mergeJoinsLoop rest (dset jmap n (dupdate mjoin j))
        (JoinRef.named n :: pr.1, pr.2)
      | none =>
        let pr := mergeJoinsLoop rest jmap
        (JoinRef.fresh (dupdate [] j) :: pr.1, pr.2)
    | none =>
      let pr := mergeJoinsLoop rest jmap
      (JoinRef.fresh (dupdate [] j) :: pr.1, pr.2)

/-- Reading one appended reference after the loop has finished: an alias
of a map entry shows the entry's final (fully accumulated) state. -/
def resolveJoinRef (jmap : Dict Join) : JoinRef → Join
  | .fresh j => j
  | .named n => (dget? jmap n).getD []

/-- The join-merging block of `DefaultModelProvider.cube` (entered when
both join lists are truthy): build the model join map from deep copies
of the model joins, run the merge loop — which mutates map entries in
place — and read the appended references against the final map state. -/
def mergeJoins (model_joins cube_joins : List Join) :
    Except Err (List Join) :=
  match buildJoinMap model_joins [] with
  | .error e => .error e
  | .ok jmap =>
    let pr := mergeJoinsLoop cube_joins jmap
    .ok (pr.1.map (resolveJoinRef pr.2))

/-- Model-level metadata fields `DefaultModelProvider.cube` reads.
`none` means the key is absent from the metadata dictionary. -/
structure ModelMetaRec where
  mappings : Option (Dict String) := none
  joins : Option (List Join) := none
  datastore : Option String := none
  browser_options : Option (Dict String) := none
  deriving Repr, DecidableEq

/-- Cube-level metadata record held in `cubes_metadata`. -/
structure CubeMetaRec where
  mappings : Option (Dict String) := none
  joins : Option (List Join) := none
  datastore : Option String := none
  browser_options : Option (Dict String) := none
  dimensions : List String := []
  deriving Repr, DecidableEq

/-- `DefaultModelProvider` state: the stored model metadata and the
per-cube metadata index. -/
structure DefaultModelProvider where
  metadata : ModelMetaRec
  cubes_metadata : Dict CubeMetaRec
  deriving Repr, DecidableEq

/-- The metadata of the cube that `DefaultModelProvider.cube` hands to
the `Cube` constructor. -/
structure ProvidedCube where
  linked_dimensions : List String
  mappings : Option (Dict String)
  joins : Option (List Join)
  datastore : Option String
  browser_options : Dict String
  deriving Repr, DecidableEq

/-- `DefaultModelProvider.cube(name)`: look up the cube metadata
(`ModelError` when unknown); overlay cube mappings onto a deep copy of
the model mappings (`dict.update(None)` is a `TypeError` when the cube
has no mappings of its own); inherit the model `datastore` when the
cube's is falsy; merge `browser_options` — `self.metadata.get(
'browser_options', {})` returns the provider's stored dictionary object
whenever the key is present, so the in-place `update` with the cube's
options also mutates the provider's model-level metadata (the returned
provider state records this); merge joins via `mergeJoins` when both
sides are truthy. -/
def DefaultModelProvider.cube (p : DefaultModelProvider) (name : String) :
    Except Err (ProvidedCube × DefaultModelProvider) :=
  match dget? p.cubes_metadata name with
  | none => .error .modelError
  | some md =>
    let mappingsStep : Except Err (Option (Dict String)) :=
      if dictTruthy p.metadata.mappings then
        match md.mappings with
        | none => .error .typeError
        | some cm => .ok (some (dupdate (p.metadata.mappings.getD []) cm))
      else .ok md.mappings
    match mappingsStep with
    | .error e => .error e
    | .ok mappings =>
      let model_joins := p.metadata.joins
      let cube_joins := md.joins
      let datastore :=
        if strTruthy md.datastore then md.datastore else p.metadata.datastore
      let base := p.metadata.browser_options.getD []
      let browser_options :=
        if dictTruthy md.browser_options then
          dupdate base (md.browser_options.getD [])
        else base
      let p2 :=
        if p.metadata.browser_options.isSome then
          { p with metadata :=
              { p.metadata with browser_options := some browser_options } }
        else p
      let joinsStep : Except Err (Option (List Join)) :=
        if listTruthy cube_joins && listTruthy model_joins then
          match mergeJoins (model_joins.getD []) (cube_joins.getD []) with
          | .error e => .error e
          | .ok l => .ok (some l)
        else .ok cube_joins
      match joinsStep with
      | .error e => .error e
      | .ok joins =>
        .ok ({ linked_dimensions := md.dimensions, mappings, joins, datastore,
               browser_options }, p2)

/-! ## Object-identity model for `create_dimension` and templates

Claims about aliasing between a template dimension and its clone are
stated over an explicit arena of `Level` objects addressed by numeric
ids (Python object identities): copies allocate fresh ids, and mutating
a level is an update of the store at a single id. -/

/-- Arena of live `Level` objects. -/
structure LevelStore where
  entries : List (Nat × Level)
  nextId : Nat
  deriving Repr, DecidableEq

/-- Dereference a level id. -/
def LevelStore.find? (s : LevelStore) (i : Nat) : Option Level :=
  match s.entries.find? (fun p => p.1 = i) with
  | some p => some p.2
  | none => none

/-- Allocate a new level object (fresh id). -/
def LevelStore.alloc (s : LevelStore) (l : Level) : Nat × LevelStore :=
  (s.nextId, ⟨s.entries ++ [(s.nextId, l)], s.nextId + 1⟩)

/-- Overwrite the object at id `i` (in-place mutation). -/
def LevelStore.set (s : LevelStore) (i : Nat) (l : Level) : LevelStore :=
  ⟨s.entries.map (fun p => if p.1 = i then (i, l) else p), s.nextId⟩

/-- Allocate a bare object identity (used for the dimension object
itself). -/
def LevelStore.freshId (s : LevelStore) : Nat × LevelStore :=
  (s.nextId, ⟨s.entries, s.nextId + 1⟩)

/-- `level.label = v`: mutate one level object in place. -/
def LevelStore.setLabel (s : LevelStore) (i : Nat) (v : Option String) :
    LevelStore :=
  match s.find? i with
  | some l => s.set i { l with label := v }
  | none => s

/-- Store sanity: every live id was allocated below the counter. -/
def LevelStore.wf (s : LevelStore) : Prop :=
  ∀ p ∈ s.entries, p.1 < s.nextId

/-- `Attribute.__deepcopy__` copies every field by value and passes the
`dimension` back-reference through unchanged; attributes carry no
separate identity in this embedding, so the copy is the value itself. -/
def Attribute.deepcopy (a : Attribute) : Attribute := a

/-- `Level.__deepcopy__`: rebuild through `Level.__init__` with deep-
copied attributes, re-attaching key/order/label attributes by name
inside the copy (accessing `.name` on a `None` slot would be an
`AttributeError`). -/
def Level.deepcopy (l : Level) : Except Err Level :=
  let orderAttrName := l.order_attribute.map (fun a => a.name)
  match l.key with
  | none => .error .attributeError
  | some k =>
    match l.label_attribute with
    | none => .error .attributeError
    | some la =>
      mkLevel l.name (l.attributes.map (fun a => AttrSpec.attr a.deepcopy))
        none (some k.name) orderAttrName l.order (some la.name) l.label l.info

/-- `copy.deepcopy(template.levels)`: copy each level object into a
fresh id, preserving order. -/
def deepcopyLevelIds : LevelStore → List Nat →
    Except Err (List Nat × LevelStore)
  | store, [] => .ok ([], store)
  | store, i :: rest =>
    match store.find? i with
    | none => .error .keyError
    | some l =>
      match l.deepcopy with
      | .error e => .error e
      | .ok l2 =>
        let (ni, store1) := store.alloc l2
        match deepcopyLevelIds store1 rest with
        | .error e => .error e
        | .ok (nis, store2) => .ok (ni :: nis, store2)

/-- A level reference held by a hierarchy before resolution: a level
name or a level object. -/
inductive LevelRef where
  | byName (s : String)
  | byId (i : Nat)
  deriving Repr, DecidableEq

/-- A hierarchy in the arena model: its raw `_level_refs` plus the
owning-dimension id once ownership is claimed. -/
structure HierarchyObj where
  name : String
  refs : List LevelRef
  dimension : Option Nat := none
  label : Option String := none
  info : Dict String := []
  deriving Repr, DecidableEq

/-- A dimension in the arena model: level object ids plus name-keyed
hierarchies. -/
structure DimensionObj where
  id : Nat
  name : String
  levelIds : List Nat
  hierarchies : Dict HierarchyObj := []
  default_hierarchy_name : Option String := none
  label : Option String := none
  description : Option String := none
  info : Dict String := []
  deriving Repr, DecidableEq

/-- `Dimension.level(name)` over the arena: the `_levels` dictionary is
keyed by level name with later levels overriding earlier ones, so the
last level of that name wins; a miss is a `KeyError`. -/
def levelByName (store : LevelStore) (d : DimensionObj) (n : String) :
    Except Err Level :=
  match d.levelIds.reverse.find? (fun i =>
      match store.find? i with
      | some l => l.name == n
      | none => false) with
  | some i =>
    match store.find? i with
    | some l => pure l
    | none => throw Err.keyError
  | none => throw Err.keyError

/-- Resolution of one hierarchy level reference against its owning
dimension (`Hierarchy._set_levels` via `Dimension.level`): a `Level`
object passes through, a name is looked up. -/
def resolveRef (store : LevelStore) (d : DimensionObj) :
    LevelRef → Except Err Level
  | .byId i =>
    match store.find? i with
    | some l => pure l
    | none => throw Err.keyError
  | .byName n => levelByName store d n

/-- `dict((level.name, level) for level in levels)` over level ids:
name-to-id map of the freshly copied levels, later entries override. -/
def buildLevelDict (store : LevelStore) (ids : List Nat) :
    List (String × Nat) :=
  ids.foldl (fun acc i =>
    match store.find? i with
    | some l => dset acc l.name i
    | none => acc) []

/-- `attr.dimension = self`: rewrite one attribute's back-reference. -/
def ownAttr (dref : DimRef) (a : Attribute) : Attribute :=
  { a with dimension := some dref }

/-- Ownership claim on one level object: every attribute (including the
key/label/order slots, which alias members of the attribute list in
Python) gets the new dimension back-reference. -/
def ownLevel (dref : DimRef) (l : Level) : Level :=
  { l with attributes := l.attributes.map (ownAttr dref),
           key := l.key.map (ownAttr dref),
           label_attribute := l.label_attribute.map (ownAttr dref),
           order_attribute := l.order_attribute.map (ownAttr dref) }

/-- The `_set_levels` ownership pass: rewrite the back-references of the
given level objects in place. -/
def claimLevels (dref : DimRef) (levelIds : List Nat) (store : LevelStore) :
    LevelStore :=
  levelIds.foldl (fun s i =>
    match s.find? i with
    | some l => s.set i (ownLevel dref l)
    | none => s) store

/-- `Dimension.__init__` over the arena: non-empty level list required;
`_set_levels` claims ownership of every level's attributes; absent or
falsy `hierarchies` get the default hierarchy built from the level
sequence; ownership of the hierarchies is claimed by setting their
`dimension` id. -/
def mkDimensionObj (store : LevelStore) (dimId : Nat) (name : String)
    (levelIds : List Nat) (hierarchies : Option (List HierarchyObj))
    (default_hierarchy_name : Option String) (label : Option String)
    (description : Option String) (info : Dict String) :
    Except Err (DimensionObj × LevelStore) :=
  if levelIds.isEmpty then .error .modelError
  else
    match levelIds.mapM (fun i =>
        match store.find? i with
        | some l => Except.ok l
        | none => Except.error Err.keyError) with
    | .error e => .error e
    | .ok levels =>
      let dref : DimRef := { id := dimId, name,
                             is_flat := levelIds.length == 1,
                             has_details := levels.any (fun l => l.has_details) }
      let store2 := claimLevels dref levelIds store
      let hs :=
        match hierarchies with
        | some hs => if hs.isEmpty then
            [({ name := "default", refs := levelIds.map LevelRef.byId } : HierarchyObj)]
          else hs
        | none =>
          [({ name := "default", refs := levelIds.map LevelRef.byId } : HierarchyObj)]
      let hdict := hs.foldl (fun acc h =>
        dset acc h.name { h with dimension := some dimId }) ([] : Dict HierarchyObj)
      .ok ({ id := dimId, name, levelIds, hierarchies := hdict,
             default_hierarchy_name, label, description, info }, store2)

/-- Dictionary-shaped level metadata (`Level(**metadata)` keys). -/
structure LevelRecord where
  name : Option String := none
  attributes : Option (List AttrSpec) := none
  key : Option String := none
  order_attribute : Option String := none
  order : Option String := none
  label_attribute : Option String := none
  label : Option String := none
  info : Dict String := []
  deriving Repr, DecidableEq

/-- String-or-dict level metadata. -/
inductive LevelMetadata where
  | str (s : String)
  | record (r : LevelRecord)
  deriving Repr, DecidableEq

/-- `fix_level_metadata`: a bare string becomes a level of that name
with itself as the only attribute; a dictionary without `attributes`
gets `[name]` (a missing name is a `ModelError`). -/
def fix_level_metadata (md : LevelMetadata) : Except Err LevelRecord :=
  match md with
  | .str s => .ok { name := some s, attributes := some [AttrSpec.str s] }
  | .record r =>
    match r.attributes with
    | some _ => .ok r
    | none =>
      match r.name with
      | some n => .ok { r with attributes := some [AttrSpec.str n] }
      | none => .error .modelError

/-- `Level(**record)`: the `name` keyword is required (a missing one is
a `TypeError` from the call itself). -/
def levelFromRecord (r : LevelRecord) : Except Err Level :=
  match r.name with
  | none => .error .typeError
  | some n =>
    mkLevel n (r.attributes.getD []) none r.key r.order_attribute r.order
      r.label_attribute r.label r.info

/-- Allocate a list of freshly constructed level objects. -/
def allocLevels : LevelStore → List Level → List Nat × LevelStore
  | store, [] => ([], store)
  | store, l :: rest =>
    let (i, store1) := store.alloc l
    let (is, store2) := allocLevels store1 rest
    (i :: is, store2)

/-- Dictionary-shaped hierarchy metadata (`Hierarchy(**md)`). -/
structure HierarchyMetadata where
  name : String
  levels : List String
  label : Option String := none
  info : Dict String := []
  deriving Repr, DecidableEq

/-- Dimension metadata dictionary: the keys `create_dimension` reads.
`none` field values model absent keys. -/
structure DimensionMetadata where
  name : Option String := none
  template : Option String := none
  levels : Option (List LevelMetadata) := none
  hierarchy : Option (List String) := none
  hierarchies : Option (List HierarchyMetadata) := none
  default_hierarchy_name : Option String := none
  label : Option String := none
  description : Option String := none
  info : Option (Dict String) := none
  attributes : Option (List AttrSpec) := none
  key : Option String := none
  order_attribute : Option String := none
  order : Option String := none
  label_attribute : Option String := none
  deriving Repr, DecidableEq

/-- The values of a dictionary. -/
def dvalues {α : Type} (d : Dict α) : List α :=
  d.map (fun p => p.2)

/-- The `if not levels:` branch of `create_dimension`: synthesize one
flat level carrying the dimension-level attribute keys, with `name` and
`key` forced to the dimension name and `label` to the resolved label (a
`None` dimension name is embedded as `""`). -/
def synthFlatLevel (store : LevelStore) (metadata : DimensionMetadata)
    (name : Option String) (label : Option String) :
    Except Err (List Nat × LevelStore) :=
  let lname := name.getD ""
  let rec0 : LevelRecord :=
    { name := some lname, attributes := metadata.attributes,
      key := some lname, order_attribute := metadata.order_attribute,
      order := metadata.order, label_attribute := metadata.label_attribute,
      label := label }
  match fix_level_metadata (LevelMetadata.record rec0) with
  | .error e => .error e
  | .ok r =>
    match levelFromRecord r with
    | .error e => .error e
    | .ok l =>
      let (i, store1) := store.alloc l
      .ok ([i], store1)

/-- One template hierarchy copy: resolve the hierarchy's level
references through the template, then re-reference the same-named fresh
level copies (`level_dict`). -/
def copyHierarchy (store1 : LevelStore) (template : DimensionObj)
    (levelDict : List (String × Nat)) (hier : HierarchyObj) :
    Except Err HierarchyObj :=
  match hier.refs.mapM (resolveRef store1 template) with
  | .error e => .error e
  | .ok lvls =>
    match lvls.mapM (fun l =>
        match dget? levelDict l.name with
        | some i => Except.ok i
        | none => Except.error Err.keyError) with
    | .error e => .error e
    | .ok ids =>
      .ok { name := hier.name, refs := ids.map LevelRef.byId,
            label := hier.label, info := hier.info }

/-- The template-resolution prefix of `create_dimension`: look the
template up in the pool (`TemplateRequired` on a miss), deep-copy its
levels, and rebuild its hierarchies over the copies; without a template
everything starts empty. -/
def templateStep (store : LevelStore) (metadata : DimensionMetadata)
    (dimensions : Dict DimensionObj) :
    Except Err (Option (List Nat) × Option (List HierarchyObj) ×
      Option String × Option String × Option String × Dict String ×
      LevelStore) :=
  match metadata.template with
  | none => .ok (none, none, none, none, none, [], store)
  | some templateName =>
    match dget? dimensions templateName with
    | none => .error (.templateRequired templateName)
    | some template =>
      match deepcopyLevelIds store template.levelIds with
      | .error e => .error e
      | .ok (newIds, store1) =>
        let levelDict := buildLevelDict store1 newIds
        match (dvalues template.hierarchies).mapM
            (copyHierarchy store1 template levelDict) with
        | .error e => .error e
        | .ok hiers =>
          .ok (some newIds, some hiers, template.default_hierarchy_name,
               template.label, template.description, template.info, store1)

/-- `create_dimension(metadata, dimensions, name)`: resolve the
`template` against the pool (`TemplateRequired` on a miss), deep-copying
the template's levels and rebuilding its hierarchies so their level
lists reference the new copies; apply metadata overrides for
label/description/info; explicit `levels` metadata replaces inherited
levels; with no levels at all, synthesize a single flat level named
after the `name` argument (a `None` name is embedded as `""`);
`hierarchy` and `hierarchies` together are a
`ModelInconsistencyError`, a truthy `hierarchy` list becomes the single
hierarchy `"default"`, a present `hierarchies` key builds one hierarchy
per record; then construct the `Dimension`. -/
def create_dimension (store : LevelStore) (metadata : DimensionMetadata)
    (dimensions : Dict DimensionObj) (name : Option String) :
    Except Err (DimensionObj × LevelStore) :=
  match templateStep store metadata dimensions with
  | .error e => .error e
  | .ok (tLevels, tHiers, tDhn, tLabel, tDescription, tInfo, store1) =>
    let label := if strTruthy metadata.label then metadata.label else tLabel
    let description :=
      if strTruthy metadata.description then metadata.description
      else tDescription
    let info :=
      match metadata.info with
      | some d => if !d.isEmpty then d else tInfo
      | none => tInfo
    match (if listTruthy metadata.levels then
             match (metadata.levels.getD []).mapM fix_level_metadata with
             | .error e => .error e
             | .ok recs =>
               match recs.mapM levelFromRecord with
               | .error e => .error e
               | .ok newLevels =>
                 let pr := allocLevels store1 newLevels
                 Except.ok (some pr.1, pr.2)
           else Except.ok (tLevels, store1)) with
    | .error e => .error e
    | .ok (lvls0, store2) =>
      match (match lvls0 with
             | some ids =>
               if ids.isEmpty then synthFlatLevel store2 metadata name label
               else Except.ok (ids, store2)
             | none => synthFlatLevel store2 metadata name label) with
      | .error e => .error e
      | .ok (lvls, store3) =>
        if metadata.hierarchy.isSome && metadata.hierarchies.isSome then
          .error .modelInconsistencyError
        else
          let hiers :=
            if listTruthy metadata.hierarchy then
              some [({ name := "default",
                       refs := (metadata.hierarchy.getD []).map
                         LevelRef.byName } : HierarchyObj)]
            else
              match metadata.hierarchies with
              | some hmds =>
                some (hmds.map (fun hm =>
                  ({ name := hm.name, refs := hm.levels.map LevelRef.byName,
                     label := hm.label, info := hm.info } : HierarchyObj)))
              | none => tHiers
          let dhn :=
            match metadata.default_hierarchy_name with
            | some v => some v
            | none => tDhn
          match (if strTruthy name then Except.ok (name.getD "")
                 else
                   match metadata.name with
                   | some n => Except.ok n
                   | none => Except.error Err.keyError) with
          | .error e => .error e
          | .ok dimName =>
            let (dimId, store4) := store3.freshId
            mkDimensionObj store4 dimId dimName lvls hiers dhn label
              description info

/-- Content preserved between a level and its clone-or-rewrite: same
name, same label, same attribute names. -/
def levelPres (l0 l2 : Level) : Prop :=
  l2.name = l0.name ∧ l2.label = l0.label ∧
  l2.attributes.map (fun a => a.name) = l0.attributes.map (fun a => a.name)

/-! ## Concrete fixtures -/

/-- A bare attribute of the given name. -/
def sampleAttr (n : String) : Attribute := { name := n }

/-- A single-attribute level, as `Level.__init__` builds it from a bare
name. -/
def sampleLevel (n : String) : Level :=
  { name := n, attributes := [sampleAttr n], key := some (sampleAttr n),
    label_attribute := some (sampleAttr n),
    order_attribute := some (sampleAttr n) }

/-- A one-level hierarchy fixture. -/
def c1Hier (n : String) : Hierarchy :=
  { name := n, levels := [sampleLevel "year"] }

/-- Dimension with two hierarchies and `default_hierarchy_name` set. -/
def c1DimNamed : Dimension :=
  { id := 0, name := "date", levels := [sampleLevel "year", sampleLevel "month"],
    hierarchies := [("h1", c1Hier "h1"), ("h2", c1Hier "h2")],
    default_hierarchy_name := some "h2" }

/-- Dimension with a single hierarchy not named `"default"` and no
default name. -/
def c1DimSole : Dimension :=
  { id := 1, name := "date", levels := [sampleLevel "year", sampleLevel "month"],
    hierarchies := [("std", c1Hier "std")] }

/-- Dimension with two hierarchies and no disambiguating default. -/
def c1DimMulti : Dimension :=
  { id := 2, name := "date", levels := [sampleLevel "year", sampleLevel "month"],
    hierarchies := [("h1", c1Hier "h1"), ("h2", c1Hier "h2")] }

/-- Dimension with several levels and no hierarchies. -/
def c1DimMultiLevelNoHier : Dimension :=
  { id := 3, name := "date", levels := [sampleLevel "year", sampleLevel "month"],
    hierarchies := [] }

/-- Dimension with no levels and no hierarchies. -/
def c1DimEmpty : Dimension :=
  { id := 4, name := "empty", levels := [], hierarchies := [] }

/-- Flat dimension with no hierarchies and an unpopulated
`_flat_hierarchy` cache: the claimed synthesize-and-cache case. -/
def c1DimFlatNoHier : Dimension :=
  { id := 5, name := "flat", levels := [sampleLevel "flat"], hierarchies := [] }

/-- The year→month→day hierarchy of the rollup examples. -/
def ymdHierarchy : Hierarchy :=
  { name := "default",
    levels := [sampleLevel "year", sampleLevel "month", sampleLevel "day"] }

/-- Flat attribute owned by dimension id 10. -/
def c5Attr : Attribute :=
  { name := "flat",
    dimension := some { id := 10, name := "flat", is_flat := true,
                        has_details := false } }

/-- The single level of the C5 dimension. -/
def c5Level : Level :=
  { name := "flat", attributes := [c5Attr], key := some c5Attr,
    label_attribute := some c5Attr, order_attribute := some c5Attr }

/-- Flat dimension whose `hierarchies` mapping is empty: its validation
produces exactly one `'default'`-tagged entry. -/
def c5Dim : Dimension :=
  { id := 10, name := "flat", levels := [c5Level], hierarchies := [] }

/-- The default record-count measure as a built attribute. -/
def recordCountAttr : Attribute :=
  { name := "record", label := some "Count",
    aggregations := some ["count", "sma"] }

/-- A cube whose validation is clean. -/
def c5Cube : Cube := { name := "sales", measures := [recordCountAttr] }

/-- Model whose complete validation output is one `'default'` entry. -/
def c5Model : Model :=
  { dimensions := [c5Dim], cubes := [("sales", c5Cube)] }

/-- Registered dimension for the `add_cube` counterexample. -/
def c2DimA : Dimension :=
  { id := 0, name := "d", levels := [sampleLevel "d"],
    hierarchies := [("default", { name := "default", levels := [sampleLevel "d"] })] }

/-- The same dimension specification under a different object
identity. -/
def c2DimB : Dimension :=
  { id := 1, name := "d", levels := [sampleLevel "d"],
    hierarchies := [("default", { name := "default", levels := [sampleLevel "d"] })] }

/-- Model that already registers `c2DimA`. -/
def c2Model : Model := { dimensions := [c2DimA] }

/-- Cube referencing the structurally equal twin `c2DimB`. -/
def c2Cube : Cube := { name := "c", dimensions := [c2DimB] }

/-- A dimension with a name not registered in `c2Model`. -/
def c2DimNew : Dimension :=
  { id := 7, name := "t", levels := [sampleLevel "t"],
    hierarchies := [("default", { name := "default", levels := [sampleLevel "t"] })] }

/-- Cube referencing only the fresh-named dimension. -/
def c2CubeNew : Cube := { name := "c2", dimensions := [c2DimNew] }

/-- Provider whose model metadata and cube metadata both carry
`browser_options`. -/
def c9Provider : DefaultModelProvider :=
  { metadata := { browser_options := some [("a", "1")] },
    cubes_metadata := [("c", { browser_options := some [("b", "2")] })] }

/-- Template-side level arena: two live level objects with ids 0, 1. -/
def c7Store : LevelStore :=
  ⟨[(0, sampleLevel "year"), (1, sampleLevel "month")], 2⟩

/-- A template hierarchy referencing both level objects by id. -/
def c7Hier : HierarchyObj :=
  { name := "ym", refs := [LevelRef.byId 0, LevelRef.byId 1] }

/-- A template dimension object over that arena. -/
def c7Template : DimensionObj :=
  { id := 100, name := "date", levelIds := [0, 1],
    hierarchies := [("ym", c7Hier)] }

/-- The dimension pool holding the template under `datetmpl`. -/
def c7Pool : Dict DimensionObj := [("datetmpl", c7Template)]

/-- Dimension metadata that only references the template. -/
def c7Meta : DimensionMetadata := { template := some "datetmpl" }

/-- The dimension object and store produced by `create_dimension` on the
template fixture (with a dummy pair on the unreached error branch). -/
def c7Pair : DimensionObj × LevelStore :=
  match create_dimension c7Store c7Meta c7Pool (some "newdate") with
  | .ok p => p
  | .error _ => ({ id := 0, name := "", levelIds := [] }, ⟨[], 0⟩)

/-! ## Theorems -/

/-- C1: default-hierarchy resolution.  The named default and the
sole-hierarchy fallback resolve, the ambiguous and empty configurations
raise `ModelError` — but the claimed synthesize-and-cache case (zero
hierarchies, exactly one level, empty cache) raises `NameError`, because
the source line `Hierarchy(name=level.name, dimension=self,
levels=[levels[0]])` references the unbound names `level` and
`levels`. -/
theorem c1_default_hierarchy_eval :
    Dimension._default_hierarchy c1DimNamed = .ok (c1Hier "h2") ∧
    Dimension._default_hierarchy c1DimSole = .ok (c1Hier "std") ∧
    Dimension._default_hierarchy c1DimMulti = .error .modelError ∧
    Dimension._default_hierarchy c1DimMultiLevelNoHier = .error .modelError ∧
    Dimension._default_hierarchy c1DimEmpty = .error .modelError ∧
    Dimension._default_hierarchy c1DimFlatNoHier = .error .nameError := by
  exact ⟨rfl, rfl, rfl, rfl, rfl, rfl⟩

/-- C10: `path_is_base(None)` is `False` for every hierarchy, and a
non-`None` path is a base path exactly when its length equals the
hierarchy's level count. -/
theorem c10_path_is_base (h : Hierarchy) (p : List String) :
    Hierarchy.path_is_base h none = false ∧
    (Hierarchy.path_is_base h (some p) = true ↔
      p.length = h.levels.length) := by
  refine ⟨rfl, ?_⟩
  simp [Hierarchy.path_is_base]

/-- C3 counterexample: for the year→month→day hierarchy,
`rollup(["2020","03","15"], level="month")` returns `["2020","03"]`
(the named level is kept), not the claimed `["2020"]`. -/
theorem c3_rollup_counterexample :
    Hierarchy.rollup ymdHierarchy ["2020", "03", "15"] (some "month") =
      .ok ["2020", "03"] ∧
    (["2020", "03"] : List String) ≠ ["2020"] := by
  exact ⟨rfl, by decide⟩

/-- C3 amended: `rollup(path, None)` drops the last entry
(`["2020","03","15"] ↦ ["2020","03"]`, `[] ↦ []`); `rollup(path, level)`
keeps the prefix up to and *including* the named level
(`level="month" ↦ ["2020","03"]`); and a named level whose index-plus-
one exceeds the path length raises `HierarchyError`. -/
theorem c3_rollup_amended :
    Hierarchy.rollup ymdHierarchy ["2020", "03", "15"] none =
      .ok ["2020", "03"] ∧
    Hierarchy.rollup ymdHierarchy ["2020", "03", "15"] (some "month") =
      .ok ["2020", "03"] ∧
    Hierarchy.rollup ymdHierarchy [] none = .ok [] ∧
    ∀ (h : Hierarchy) (path : List String) (s : String) (i : Nat),
      s ≠ "" → h.level_index s = .ok i → path.length < i + 1 →
      Hierarchy.rollup h path (some s) = .error .hierarchyError := by
  refine ⟨rfl, rfl, rfl, ?_⟩
  intro h path s i hs hidx hlen
  have hst : strTruthy (some s) = true := by simp [strTruthy, hs]
  simp only [Hierarchy.rollup, hst, if_true, hidx, Option.getD]
  show (if path.length < i + 1 then throw Err.hierarchyError
        else pure (List.take (i + 1) path) : Except Err (List String)) =
      Except.error Err.hierarchyError
  simp only [if_pos hlen]
  rfl

/-- C9: evaluating `DefaultModelProvider.cube` on a provider whose model
metadata holds `browser_options {"a": "1"}` and whose cube metadata
holds `{"b": "2"}` leaves the provider's stored model-level
`browser_options` mutated to `{"a": "1", "b": "2"}` — the claim that the
stored model metadata stays unchanged fails because the merge updates
the stored dictionary object in place. -/
theorem c9_browser_options_mutation_eval :
    (DefaultModelProvider.cube c9Provider "c").map
        (fun r => r.2.metadata.browser_options) =
      .ok (some [("a", "1"), ("b", "2")]) ∧
    c9Provider.metadata.browser_options = some [("a", "1")] := by
  exact ⟨rfl, rfl⟩

/-- C5: a model whose full validation output is a single
`'default'`-tagged entry (a flat dimension with an empty hierarchy
mapping) is reported *invalid* under `is_valid(strict=True)`, because
`is_valid` returns `False` for any non-empty result list once `strict`
is set; with `strict=False` the same model is valid.  This contradicts
the claim (and the method's own docstring), under which only `'error'`
and `'warning'` entries may invalidate. -/
theorem c5_is_valid_strict_eval :
    (Model.validate c5Model).map (fun l => l.map (fun e => e.1)) =
      .ok [Sev.default] ∧
    Model.is_valid c5Model true = .ok false ∧
    Model.is_valid c5Model false = .ok true := by
  exact ⟨rfl, rfl, rfl⟩

/-- C3 amended, witness: rolling the one-element path `["2020"]` up to
`"month"` (index 1) raises `HierarchyError`. -/
theorem c3_rollup_amended_witness :
    Hierarchy.rollup ymdHierarchy ["2020"] (some "month") =
      .error .hierarchyError :=
  c3_rollup_amended.2.2.2 ymdHierarchy ["2020"] "month" 1 (by decide) rfl
    (by decide)

/-- `str.rfind` misses exactly when the character does not occur. -/
theorem lastIdxOf_eq_none_iff (c : Char) (l : List Char) :
    lastIdxOf c l = none ↔ c ∉ l := by
  induction l with
  | nil => simp [lastIdxOf]
  | cons x xs ih =>
    simp only [lastIdxOf, List.mem_cons]
    cases hx : lastIdxOf c xs with
    | some i =>
      have hin : c ∈ xs := by
        by_contra hno
        rw [← ih] at hno
        simp [hx] at hno
      simp [hin]
    | none =>
      have hnot : c ∉ xs := ih.mp hx
      by_cases hxc : x = c
      · subst hxc
        simp
      · rw [if_neg hxc]
        constructor
        · intro _
          rintro (h1 | h2)
          · exact hxc h1.symm
          · exact hnot h2
        · intro _
          rfl

/-- The last underscore of `m ++ "_" ++ a` sits at index `|m|` when `a`
is underscore-free. -/
theorem lastIdxOf_append_eq (m a : List Char) (ha : '_' ∉ a) :
    lastIdxOf '_' (m ++ '_' :: a) = some m.length := by
  induction m with
  | nil =>
    rw [List.nil_append]
    simp [lastIdxOf, (lastIdxOf_eq_none_iff '_' a).mpr ha]
  | cons x xs ih =>
    simp only [List.cons_append, lastIdxOf, List.append_eq, ih,
      List.length_cons]

/-- C6 counterexample: with `m = "x"` and `a = "y_z"` the round trip
splits at the *last* underscore, giving `("x_y", "z")`, not
`("x", "y_z")` — the law does not hold for all non-empty strings. -/
theorem c6_roundtrip_counterexample :
    split_aggregate_ref (aggregate_ref "x" "y_z") = .ok ("x_y", "z") ∧
    ("x_y", "z") ≠ ("x", "y_z") := by
  exact ⟨rfl, by decide⟩

/-- C6 amended: `split_aggregate_ref(aggregate_ref(m, a)) == (m, a)` for
all non-empty `m` and all non-empty *underscore-free* `a` (the measure
name may contain underscores); and `split_aggregate_ref` on a string
with no underscore raises `ArgumentError`. -/
theorem c6_roundtrip_amended :
    (∀ m a : String, m ≠ "" → a ≠ "" → '_' ∉ a.toList →
      split_aggregate_ref (aggregate_ref m a) = .ok (m, a)) ∧
    (∀ s : String, '_' ∉ s.toList →
      split_aggregate_ref s = .error .argumentError) := by
  constructor
  · intro m a hm ha hfree
    have hdata : (aggregate_ref m a).toList = m.toList ++ '_' :: a.toList := by
      show (m ++ "_" ++ a).data = m.data ++ '_' :: a.data
      rw [String.data_append, String.data_append]
      show (m.data ++ ['_']) ++ a.data = m.data ++ '_' :: a.data
      simp
    have hanil : a.toList ≠ [] := fun hnil => ha (String.ext hnil)
    simp only [split_aggregate_ref, hdata, lastIdxOf_append_eq _ _ hfree]
    have hlen : ¬ (m.toList.length + 1 ≥ (m.toList ++ '_' :: a.toList).length) := by
      have : 0 < a.toList.length := List.length_pos.mpr hanil
      simp only [List.length_append, List.length_cons, ge_iff_le, not_le]
      omega
    rw [if_neg hlen]
    have ht : (m.toList ++ '_' :: a.toList).take m.toList.length = m.toList :=
      List.take_left _ _
    have hd : (m.toList ++ '_' :: a.toList).drop (m.toList.length + 1) =
        a.toList := by
      rw [show m.toList ++ '_' :: a.toList = (m.toList ++ ['_']) ++ a.toList by
        simp]
      rw [show m.toList.length + 1 = (m.toList ++ ['_']).length by simp]
      exact List.drop_left _ _
    rw [ht, hd]
    rfl
  · intro s hs
    simp only [split_aggregate_ref, (lastIdxOf_eq_none_iff '_' s.toList).mpr hs]

/-- C6 amended, witness: `("revenue", "sum")` round-trips and
`"nounderscore"` raises `ArgumentError`. -/
theorem c6_roundtrip_amended_witness :
    split_aggregate_ref (aggregate_ref "revenue" "sum") =
      .ok ("revenue", "sum") ∧
    split_aggregate_ref "nounderscore" = .error .argumentError := by
  exact ⟨c6_roundtrip_amended.1 "revenue" "sum" (by decide) (by decide)
      (by decide),
    c6_roundtrip_amended.2 "nounderscore" (by decide)⟩

/-- Adding dimensions to a cube never touches its measures or
details. -/
theorem foldl_add_dimension_fields : ∀ (ds : List Dimension) (c0 c : Cube),
    ds.foldlM Cube.add_dimension c0 = .ok c →
    c.measures = c0.measures ∧ c.details = c0.details := by
  intro ds
  induction ds with
  | nil =>
    intro c0 c h
    simp only [List.foldlM_nil] at h
    cases h
    exact ⟨rfl, rfl⟩
  | cons d rest ih =>
    intro c0 c h
    rw [List.foldlM_cons] at h
    cases had : Cube.add_dimension c0 d with
    | error e =>
      rw [had] at h
      exact Except.noConfusion h
    | ok c1 =>
      rw [had] at h
      have h2 : rest.foldlM Cube.add_dimension c1 = .ok c := h
      have hf : c1.measures = c0.measures ∧ c1.details = c0.details := by
        unfold Cube.add_dimension at had
        split at had
        · exact Except.noConfusion had
        · cases had
          exact ⟨rfl, rfl⟩
      obtain ⟨h1, h2d⟩ := ih c1 c h2
      exact ⟨h1.trans hf.1, h2d.trans hf.2⟩

/-- The measures of a successfully constructed cube are exactly the
`attribute_list` conversion of the (possibly defaulted) measure
specifications. -/
theorem mkCube_measures : ∀ (nm : String) (dims : Option (List Dimension))
    (msl : Option (List AttrSpec)) (det : Option (List AttrSpec))
    (ld : Option (List String)) (info : Option (Dict String))
    (cat : Option String) (c : Cube),
    mkCube nm dims msl det ld info cat = .ok c →
    attribute_list
      (match msl with
       | none => [AttrSpec.record RECORD_COUNT_MEASURE]
       | some [] => [AttrSpec.record RECORD_COUNT_MEASURE]
       | some l => l) none = .ok c.measures := by
  intro nm dims msl det ld info cat c h
  unfold mkCube at h
  dsimp only at h
  revert h
  generalize (match msl with
       | none => [AttrSpec.record RECORD_COUNT_MEASURE]
       | some [] => [AttrSpec.record RECORD_COUNT_MEASURE]
       | some l => l : List AttrSpec) = specs
  generalize (match det with
       | none => []
       | some l => l : List AttrSpec) = dspecs
  intro h
  cases hm : attribute_list specs none with
  | error e =>
    rw [hm] at h
    exact Except.noConfusion h
  | ok msr =>
    rw [hm] at h
    cases hd : attribute_list dspecs none with
    | error e =>
      rw [hd] at h
      exact Except.noConfusion h
    | ok dts =>
      rw [hd] at h
      cases dims with
      | none =>
        cases h
        rfl
      | some ds =>
        have h2 : ds.foldlM Cube.add_dimension
            { name := nm, measures := msr, details := dts,
              linked_dimensions := ld.getD [],
              info := info.getD [],
              category := if strTruthy cat then cat
                else dget? (info.getD []) "category" } = .ok c := h
        have hms := (foldl_add_dimension_fields ds _ c h2).1
        rw [hms]

/-- C8: a cube constructed with measures absent or empty has exactly one
measure, named `"record"` with aggregations `["count","sma"]`; when a
non-empty measure list is supplied, the measures are exactly its
`attribute_list` conversion — no synthetic measure is added. -/
theorem c8_default_measure :
    (∀ nm dims det ld info cat c,
      mkCube nm dims none det ld info cat = .ok c →
      c.measures = [recordCountAttr]) ∧
    (∀ nm dims det ld info cat c,
      mkCube nm dims (some []) det ld info cat = .ok c →
      c.measures = [recordCountAttr]) ∧
    (∀ nm dims ms det ld info cat c, ms ≠ [] →
      mkCube nm dims (some ms) det ld info cat = .ok c →
      attribute_list ms none = .ok c.measures) := by
  refine ⟨?_, ?_, ?_⟩
  · intro nm dims det ld info cat c h
    have := mkCube_measures nm dims none det ld info cat c h
    have hrec : attribute_list [AttrSpec.record RECORD_COUNT_MEASURE] none =
        .ok [recordCountAttr] := rfl
    rw [hrec] at this
    injection this with h2
    exact h2.symm
  · intro nm dims det ld info cat c h
    have := mkCube_measures nm dims (some []) det ld info cat c h
    have hrec : attribute_list [AttrSpec.record RECORD_COUNT_MEASURE] none =
        .ok [recordCountAttr] := rfl
    rw [hrec] at this
    injection this with h2
    exact h2.symm
  · intro nm dims ms det ld info cat c hms h
    have := mkCube_measures nm dims (some ms) det ld info cat c h
    cases ms with
    | nil => exact absurd rfl hms
    | cons a l => exact this

/-- C8 witness: a concrete cube with no measures gets the synthetic
record-count measure, and one with an explicit measure keeps exactly
it. -/
theorem c8_default_measure_witness :
    (∃ c, mkCube "sales" none none none none none none = .ok c ∧
      c.measures = [recordCountAttr]) ∧
    (∃ c, mkCube "sales" none (some [AttrSpec.str "amount"]) none none none
        none = .ok c ∧ attribute_list [AttrSpec.str "amount"] none =
        .ok c.measures) := by
  constructor
  · exact ⟨_, rfl, c8_default_measure.1 "sales" none none none none none _ rfl⟩
  · exact ⟨_, rfl, c8_default_measure.2.2 "sales" none [AttrSpec.str "amount"]
      none none none none _ (by decide) rfl⟩

/-- Replacing the value at key `k` puts `some v` at the first `k`
position, provided some entry has key `k`. -/
theorem find?_map_replace_self {α : Type} (d : Dict α) (k : String) (v : α)
    (hany : d.any (fun p => p.1 = k) = true) :
    (d.map (fun p => if p.1 = k then (k, v) else p)).find?
      (fun p => p.1 = k) = some (k, v) := by
  induction d with
  | nil => simp at hany
  | cons p rest ih =>
    by_cases hp : p.1 = k
    · simp [List.find?, hp]
    · have hrest : rest.any (fun q => q.1 = k) = true := by
        simp only [List.any_cons, hp, decide_False, Bool.false_or] at hany
        simpa using hany
      rw [List.map_cons, if_neg hp, List.find?_cons_of_neg _ (by simpa using hp)]
      exact ih hrest

/-- `d[k] = v` then `d[k]` reads back `v`. -/
theorem dget_dset_self {α : Type} (d : Dict α) (k : String) (v : α) :
    dget? (dset d k v) k = some v := by
  unfold dset
  by_cases hany : d.any (fun p => p.1 = k)
  · rw [if_pos hany]
    unfold dget?
    rw [find?_map_replace_self d k v hany]
  · rw [if_neg hany]
    unfold dget?
    rw [List.find?_append]
    have hnone : d.find? (fun p => p.1 = k) = none := by
      rw [List.find?_eq_none]
      intro p hp
      exact List.any_eq_false.mp (Bool.eq_false_iff.mpr hany) p hp
    rw [hnone]
    simp [List.find?]

/-- `l.contains a` agrees with membership (lawful `BEq`). -/
theorem contains_iff {α : Type} [BEq α] [LawfulBEq α] (l : List α) (a : α) :
    l.contains a = true ↔ a ∈ l := by
  simp

/-- The `add_cube` dimension loop raises only
`ModelInconsistencyError`. -/
theorem addCubeDims_err (myIds : List Nat) (myNames : List String) :
    ∀ (ds : List Dimension) (m : Model),
    (∃ m2, addCubeDims myIds myNames m ds = .ok m2) ∨
    addCubeDims myIds myNames m ds = .error .modelInconsistencyError := by
  intro ds
  induction ds with
  | nil => exact fun m => Or.inl ⟨m, rfl⟩
  | cons d rest ih =>
    intro m
    unfold addCubeDims
    by_cases hid : myIds.contains d.id = true
    · rw [if_pos hid]
      exact ih m
    · rw [if_neg hid]
      by_cases hnm : myNames.contains d.name = true
      · rw [if_neg (by rw [hnm]; decide)]
        exact Or.inr rfl
      · rw [if_pos (by rw [Bool.eq_false_iff.mpr hnm]; decide)]
        cases had : m.add_dimension d with
        | ok m1 => exact ih m1
        | error e =>
          unfold Model.add_dimension at had
          split at had
          · injection had with he
            subst he
            exact Or.inr rfl
          · exact Except.noConfusion had

/-- After a successful `add_cube` dimension loop: existing dimensions
persist, every cube dimension is identity-present or was itself
appended, and the cube table is untouched. -/
theorem addCubeDims_post (myIds : List Nat) (myNames : List String) :
    ∀ (ds : List Dimension) (m m2 : Model),
    addCubeDims myIds myNames m ds = .ok m2 →
    (∀ d0 ∈ m.dimensions, d0 ∈ m2.dimensions) ∧
    (∀ d ∈ ds, d.id ∈ myIds ∨ d ∈ m2.dimensions) ∧
    m2.cubes = m.cubes := by
  intro ds
  induction ds with
  | nil =>
    intro m m2 h
    cases h
    exact ⟨fun d0 h0 => h0, fun d hd => absurd hd (List.not_mem_nil d), rfl⟩
  | cons d rest ih =>
    intro m m2 h
    unfold addCubeDims at h
    by_cases hid : myIds.contains d.id = true
    · rw [if_pos hid] at h
      obtain ⟨hsub, hmem, hcubes⟩ := ih m m2 h
      refine ⟨hsub, ?_, hcubes⟩
      intro d2 hd2
      rcases List.mem_cons.mp hd2 with h1 | h2
      · subst h1
        exact Or.inl ((contains_iff myIds d2.id).mp hid)
      · exact hmem d2 h2
    · rw [if_neg hid] at h
      by_cases hnm : myNames.contains d.name = true
      · rw [if_neg (by rw [hnm]; decide)] at h
        exact Except.noConfusion h
      · rw [if_pos (by rw [Bool.eq_false_iff.mpr hnm]; decide)] at h
        cases had : m.add_dimension d with
        | error e =>
          rw [had] at h
          exact Except.noConfusion h
        | ok m1 =>
          rw [had] at h
          have hm1 : m1 = { m with dimensions := m.dimensions ++ [d] } := by
            unfold Model.add_dimension at had
            split at had
            · exact Except.noConfusion had
            · injection had with he
              exact he.symm
          obtain ⟨hsub, hmem, hcubes⟩ := ih m1 m2 h
          subst hm1
          refine ⟨?_, ?_, hcubes⟩
          · intro d0 h0
            exact hsub d0 (List.mem_append_left [d] h0)
          · intro d2 hd2
            rcases List.mem_cons.mp hd2 with h1 | h2
            · subst h1
              exact Or.inr (hsub d2 (List.mem_append_right m.dimensions
                (List.mem_singleton.mpr rfl)))
            · exact hmem d2 h2

/-- Success characterization of the `add_cube` dimension loop: under the
cube invariant of pairwise distinct dimension names, and with
snapshot-fresh names absent from the current dimension list, the loop
succeeds precisely when each dimension is identity-present or
name-fresh with respect to the snapshots. -/
theorem addCubeDims_ok_iff (myIds : List Nat) (myNames : List String) :
    ∀ (ds : List Dimension) (m : Model),
    (∀ d ∈ ds, d.name ∈ myNames ∨ ∀ d0 ∈ m.dimensions, d0.name ≠ d.name) →
    (ds.map (fun d => d.name)).Nodup →
    ((∃ m2, addCubeDims myIds myNames m ds = .ok m2) ↔
      ∀ d ∈ ds, d.id ∈ myIds ∨ d.name ∉ myNames) := by
  intro ds
  induction ds with
  | nil =>
    intro m _ _
    constructor
    · intro _ d hd
      exact absurd hd (List.not_mem_nil d)
    · intro _
      exact ⟨m, rfl⟩
  | cons d rest ih =>
    intro m h1 h2
    have h2r : (rest.map (fun d => d.name)).Nodup :=
      (List.nodup_cons.mp (by simpa using h2)).2
    have hdnotin : d.name ∉ rest.map (fun d => d.name) :=
      (List.nodup_cons.mp (by simpa using h2)).1
    unfold addCubeDims
    by_cases hid : myIds.contains d.id = true
    · rw [if_pos hid]
      rw [ih m (fun d2 hd2 => h1 d2 (List.mem_cons_of_mem d hd2)) h2r]
      constructor
      · intro hrest d2 hd2
        rcases List.mem_cons.mp hd2 with he | he
        · subst he
          exact Or.inl ((contains_iff myIds d2.id).mp hid)
        · exact hrest d2 he
      · intro hall d2 hd2
        exact hall d2 (List.mem_cons_of_mem d hd2)
    · rw [if_neg hid]
      by_cases hnm : myNames.contains d.name = true
      · rw [if_neg (by rw [hnm]; decide)]
        constructor
        · intro hex
          obtain ⟨m2, hm2⟩ := hex
          exact Except.noConfusion hm2
        · intro hall
          exfalso
          rcases hall d (List.mem_cons_self d rest) with hl | hr
          · exact hid ((contains_iff myIds d.id).mpr hl)
          · exact hr ((contains_iff myNames d.name).mp hnm)
      · rw [if_pos (by rw [Bool.eq_false_iff.mpr hnm]; decide)]
        have hfresh : ∀ d0 ∈ m.dimensions, d0.name ≠ d.name := by
          rcases h1 d (List.mem_cons_self d rest) with hl | hr
          · exact absurd ((contains_iff myNames d.name).mpr hl) hnm
          · exact hr
        have hadd : m.add_dimension d =
            .ok { m with dimensions := m.dimensions ++ [d] } := by
          unfold Model.add_dimension
          rw [if_neg]
          rw [Bool.not_eq_true, List.any_eq_false]
          intro d0 hd0
          simp only [decide_eq_true_eq]
          exact hfresh d0 hd0
        rw [hadd]
        rw [ih { m with dimensions := m.dimensions ++ [d] } ?hnames h2r]
        case hnames =>
          intro d2 hd2
          rcases h1 d2 (List.mem_cons_of_mem d hd2) with hl | hr
          · exact Or.inl hl
          · refine Or.inr ?_
            intro d0 hd0
            rcases List.mem_append.mp hd0 with ha | hb
            · exact hr d0 ha
            · rw [List.mem_singleton.mp hb]
              intro heq
              exact hdnotin (by
                rw [heq]
                exact List.mem_map_of_mem (fun d => d.name) hd2)
        constructor
        · intro hrest d2 hd2
          rcases List.mem_cons.mp hd2 with he | he
          · subst he
            exact Or.inr (fun hmem =>
              hnm ((contains_iff myNames d2.name).mpr hmem))
          · exact hrest d2 he
        · intro hall d2 hd2
          exact hall d2 (List.mem_cons_of_mem d hd2)

/-- C2 counterexample: the model registers `c2DimA` and the cube holds
`c2DimB`, which differs from `c2DimA` only in object identity (same
name, same specification).  No cube dimension is identity-present, so
per the claim it should be auto-registered, yet `add_cube` raises
`ModelInconsistencyError`. -/
theorem c2_identity_counterexample :
    Model.add_cube c2Model c2Cube = .error .modelInconsistencyError ∧
    (∀ d ∈ c2Cube.dimensions, ∀ d0 ∈ c2Model.dimensions, d0.id ≠ d.id) ∧
    ({ c2DimB with id := c2DimA.id } = c2DimA) := by
  refine ⟨rfl, by decide, rfl⟩

/-- C2 amended: with the cube invariant of pairwise-distinct dimension
names, `add_cube` succeeds exactly when every cube dimension is
identity-present in the model or carries an unregistered name (so any
same-named non-identical dimension — even a structurally equal one —
raises `ModelInconsistencyError`); after success every cube dimension is
identity-registered and the cube is stored under its name. -/
theorem c2_add_cube_amended (m : Model) (c : Cube)
    (hnodup : (c.dimensions.map (fun d => d.name)).Nodup) :
    ((∃ m2, Model.add_cube m c = .ok m2) ↔
      ∀ d ∈ c.dimensions,
        d.id ∈ m.dimensions.map (fun d0 => d0.id) ∨
        d.name ∉ m.dimensions.map (fun d0 => d0.name)) ∧
    (∀ m2, Model.add_cube m c = .ok m2 →
      (∀ d ∈ c.dimensions, ∃ d0 ∈ m2.dimensions, d0.id = d.id) ∧
      dget? m2.cubes c.name = some c) ∧
    ((∃ d ∈ c.dimensions,
        d.id ∉ m.dimensions.map (fun d0 => d0.id) ∧
        d.name ∈ m.dimensions.map (fun d0 => d0.name)) →
      Model.add_cube m c = .error .modelInconsistencyError) := by
  have h1 : ∀ d ∈ c.dimensions,
      d.name ∈ m.dimensions.map (fun d0 => d0.name) ∨
      ∀ d0 ∈ m.dimensions, d0.name ≠ d.name := by
    intro d _
    by_cases hmem : d.name ∈ m.dimensions.map (fun d0 => d0.name)
    · exact Or.inl hmem
    · refine Or.inr ?_
      intro d0 hd0 heq
      exact hmem (heq ▸ List.mem_map_of_mem (fun d0 => d0.name) hd0)
  have hiff := addCubeDims_ok_iff (m.dimensions.map (fun d0 => d0.id))
      (m.dimensions.map (fun d0 => d0.name)) c.dimensions m h1 hnodup
  refine ⟨?_, ?_, ?_⟩
  · rw [← hiff]
    constructor
    · rintro ⟨m2, hm2⟩
      unfold Model.add_cube at hm2
      cases hacd : addCubeDims (m.dimensions.map (fun d0 => d0.id))
          (m.dimensions.map (fun d0 => d0.name)) m c.dimensions with
      | ok m3 => exact ⟨m3, rfl⟩
      | error e =>
        rw [hacd] at hm2
        exact Except.noConfusion hm2
    · rintro ⟨m3, hm3⟩
      refine ⟨{ m3 with cubes := dset m3.cubes c.name c }, ?_⟩
      unfold Model.add_cube
      rw [hm3]
      rfl
  · intro m2 hm2
    unfold Model.add_cube at hm2
    cases hacd : addCubeDims (m.dimensions.map (fun d0 => d0.id))
        (m.dimensions.map (fun d0 => d0.name)) m c.dimensions with
    | error e =>
      rw [hacd] at hm2
      exact Except.noConfusion hm2
    | ok m3 =>
      rw [hacd] at hm2
      have hm2eq : m2 = { m3 with cubes := dset m3.cubes c.name c } := by
        injection hm2 with he
        exact he.symm
      obtain ⟨hsub, hmem, _⟩ := addCubeDims_post
        (m.dimensions.map (fun d0 => d0.id))
        (m.dimensions.map (fun d0 => d0.name)) c.dimensions m m3 hacd
      subst hm2eq
      constructor
      · intro d hd
        rcases hmem d hd with hl | hr
        · obtain ⟨d0, hd0, hid⟩ := List.mem_map.mp hl
          exact ⟨d0, hsub d0 hd0, hid⟩
        · exact ⟨d, hr, rfl⟩
      · exact dget_dset_self m3.cubes c.name c
  · intro hex
    have hnot : ¬ ∀ d ∈ c.dimensions,
        d.id ∈ m.dimensions.map (fun d0 => d0.id) ∨
        d.name ∉ m.dimensions.map (fun d0 => d0.name) := by
      obtain ⟨d, hd, hid, hnm⟩ := hex
      intro hall
      rcases hall d hd with hl | hr
      · exact hid hl
      · exact hr hnm
    have hnook : ¬ ∃ m3, addCubeDims (m.dimensions.map (fun d0 => d0.id))
        (m.dimensions.map (fun d0 => d0.name)) m c.dimensions = .ok m3 := by
      rw [hiff]
      exact hnot
    rcases addCubeDims_err (m.dimensions.map (fun d0 => d0.id))
        (m.dimensions.map (fun d0 => d0.name)) c.dimensions m with hok | herr
    · exact absurd hok hnook
    · unfold Model.add_cube
      rw [herr]
      rfl

/-- C2 amended, witness: adding a cube holding one fresh-named dimension
to `c2Model` succeeds. -/
theorem c2_add_cube_amended_witness :
    ∃ m2, Model.add_cube c2Model c2CubeNew = .ok m2 :=
  ((c2_add_cube_amended c2Model c2CubeNew (by decide)).1).mpr (by decide)

/-- Allocation preserves lookups below the counter. -/
theorem find?_alloc_lt (s : LevelStore) (l : Level) (i : Nat)
    (h : i < s.nextId) : (s.alloc l).2.find? i = s.find? i := by
  show (match (s.entries ++ [(s.nextId, l)]).find? (fun p => p.1 = i) with
        | some p => some p.2
        | none => none) =
      (match s.entries.find? (fun p => p.1 = i) with
        | some p => some p.2
        | none => none)
  rw [List.find?_append]
  have hne : ([(s.nextId, l)].find? (fun p => p.1 = i)) = none := by
    rw [List.find?_eq_none]
    intro p hp
    rw [List.mem_singleton.mp hp]
    simp only [decide_eq_true_eq]
    show ¬ (s.nextId = i)
    omega
  rw [hne, Option.or_none]

/-- A fresh allocation is retrievable at the old counter value. -/
theorem find?_alloc_self (s : LevelStore) (l : Level) (hwf : s.wf) :
    (s.alloc l).2.find? s.nextId = some l := by
  show (match (s.entries ++ [(s.nextId, l)]).find?
          (fun p => p.1 = s.nextId) with
        | some p => some p.2
        | none => none) = some l
  rw [List.find?_append]
  have hold : s.entries.find? (fun p => p.1 = s.nextId) = none := by
    rw [List.find?_eq_none]
    intro p hp
    simp only [decide_eq_true_eq]
    intro he
    exact absurd (hwf p hp) (by omega)
  rw [hold]
  simp [List.find?, Option.or]

/-- Allocation keeps the store well-formed. -/
theorem wf_alloc (s : LevelStore) (l : Level) (hwf : s.wf) :
    (s.alloc l).2.wf := by
  intro p hp
  show p.1 < s.nextId + 1
  rcases List.mem_append.mp hp with h1 | h2
  · exact Nat.lt_succ_of_lt (hwf p h1)
  · rw [List.mem_singleton.mp h2]
    show s.nextId < s.nextId + 1
    omega

/-- Replacement by id: the replaced entry is found at its id. -/
theorem find?_replace_self_nat (es : List (Nat × Level)) (i : Nat) (l : Level)
    (h : (es.find? (fun p => p.1 = i)).isSome) :
    (es.map (fun p => if p.1 = i then (i, l) else p)).find?
      (fun p => p.1 = i) = some (i, l) := by
  induction es with
  | nil => simp [List.find?] at h
  | cons q rest ih =>
    by_cases hq : q.1 = i
    · simp [List.find?, hq]
    · rw [List.map_cons, if_neg hq,
        List.find?_cons_of_neg _ (by simpa using hq)]
      rw [List.find?_cons_of_neg _ (by simpa using hq)] at h
      exact ih h

/-- Replacement by id: other ids are unaffected. -/
theorem find?_replace_other_nat (es : List (Nat × Level)) (i j : Nat)
    (l : Level) (hne : j ≠ i) :
    (es.map (fun p => if p.1 = i then (i, l) else p)).find?
      (fun p => p.1 = j) = es.find? (fun p => p.1 = j) := by
  induction es with
  | nil => rfl
  | cons q rest ih =>
    by_cases hq : q.1 = i
    · have h1 : ¬ ((i : Nat) = j) := fun he => hne he.symm
      have h2 : ¬ (q.1 = j) := by
        rw [hq]
        exact h1
      rw [List.map_cons, if_pos hq,
        List.find?_cons_of_neg _ (by simpa using h1),
        List.find?_cons_of_neg _ (by simpa using h2)]
      exact ih
    · rw [List.map_cons, if_neg hq]
      by_cases hqj : q.1 = j
      · rw [List.find?_cons_of_pos _ (by simpa using hqj),
          List.find?_cons_of_pos _ (by simpa using hqj)]
      · rw [List.find?_cons_of_neg _ (by simpa using hqj),
          List.find?_cons_of_neg _ (by simpa using hqj)]
        exact ih

/-- In-place replacement at a live id is retrievable. -/
theorem find?_set_self (s : LevelStore) (i : Nat) (l l0 : Level)
    (h : s.find? i = some l0) : (s.set i l).find? i = some l := by
  have hs : (s.entries.find? (fun p => p.1 = i)).isSome := by
    unfold LevelStore.find? at h
    cases hf : s.entries.find? (fun p => p.1 = i) with
    | none =>
      rw [hf] at h
      exact Option.noConfusion h
    | some p => simp [hf]
  show (match (s.entries.map (fun p => if p.1 = i then (i, l) else p)).find?
          (fun p => p.1 = i) with
        | some p => some p.2
        | none => none) = some l
  rw [find?_replace_self_nat s.entries i l hs]

/-- In-place replacement leaves other ids unchanged. -/
theorem find?_set_other (s : LevelStore) (i j : Nat) (l : Level)
    (hne : j ≠ i) : (s.set i l).find? j = s.find? j := by
  show (match (s.entries.map (fun p => if p.1 = i then (i, l) else p)).find?
          (fun p => p.1 = j) with
        | some p => some p.2
        | none => none) =
      (match s.entries.find? (fun p => p.1 = j) with
        | some p => some p.2
        | none => none)
  rw [find?_replace_other_nat s.entries i j l hne]

/-- Label mutation of one object leaves every other object unchanged. -/
theorem find?_setLabel_other (s : LevelStore) (i j : Nat) (v : Option String)
    (hne : j ≠ i) : (s.setLabel i v).find? j = s.find? j := by
  unfold LevelStore.setLabel
  cases hf : s.find? i with
  | none => rfl
  | some l => exact find?_set_other s i j _ hne

/-- `attribute_list` passes existing `Attribute` objects through
unchanged. -/
theorem attribute_list_attr (xs : List Attribute) (dim : Option DimRef) :
    attribute_list (xs.map AttrSpec.attr) dim = .ok xs := by
  induction xs with
  | nil => rfl
  | cons a rest ih =>
    unfold attribute_list at ih ⊢
    rw [List.map_cons, List.mapM_cons]
    show ((rest.map AttrSpec.attr).mapM
        (fun x => coalesce_attribute x dim) >>= fun bs =>
        pure (a :: bs)) = .ok (a :: rest)
    rw [ih]
    rfl

/-- A successful `mapM` output element comes from an input element. -/
theorem mapM_ok_mem {α β : Type} (f : α → Except Err β) :
    ∀ (xs : List α) (ys : List β), xs.mapM f = .ok ys →
    ∀ y ∈ ys, ∃ x ∈ xs, f x = .ok y := by
  intro xs
  induction xs with
  | nil =>
    intro ys h y hy
    rw [List.mapM_nil] at h
    cases h
    exact absurd hy (List.not_mem_nil y)
  | cons a rest ih =>
    intro ys h y hy
    rw [List.mapM_cons] at h
    cases hfa : f a with
    | error e =>
      rw [hfa] at h
      exact Except.noConfusion h
    | ok b =>
      rw [hfa] at h
      cases hrest : rest.mapM f with
      | error e =>
        rw [hrest] at h
        exact Except.noConfusion h
      | ok bs =>
        rw [hrest] at h
        cases h
        rcases List.mem_cons.mp hy with h1 | h2
        · subst h1
          exact ⟨a, List.mem_cons_self a rest, hfa⟩
        · obtain ⟨x, hx, hfx⟩ := ih bs hrest y h2
          exact ⟨x, List.mem_cons_of_mem a hx, hfx⟩

/-- `Level.__deepcopy__` preserves name, label and attribute names (its
attribute list is in fact the identical value, back-references
included). -/
theorem deepcopy_pres (l nl : Level) (h : l.deepcopy = .ok nl) :
    levelPres l nl ∧ nl.attributes = l.attributes := by
  unfold Level.deepcopy at h
  cases hk : l.key with
  | none =>
    rw [hk] at h
    exact Except.noConfusion h
  | some k =>
    rw [hk] at h
    dsimp only at h
    cases hla : l.label_attribute with
    | none =>
      rw [hla] at h
      exact Except.noConfusion h
    | some la =>
      rw [hla] at h
      dsimp only at h
      unfold mkLevel at h
      by_cases hemp : (l.attributes.map
          (fun a => AttrSpec.attr a.deepcopy)).isEmpty
      · rw [if_pos hemp] at h
        exact Except.noConfusion h
      · rw [if_neg hemp] at h
        have hattrs : attribute_list
            (l.attributes.map (fun a => AttrSpec.attr a.deepcopy)) none =
            .ok l.attributes := by
          have : l.attributes.map (fun a => AttrSpec.attr a.deepcopy) =
              l.attributes.map AttrSpec.attr := by
            unfold Attribute.deepcopy
            rfl
          rw [this]
          exact attribute_list_attr l.attributes none
        rw [hattrs] at h
        dsimp only at h
        cases hfk : (if strTruthy (some k.name) = true then
            findAttribute l.attributes ((some k.name).getD "")
          else firstAttributeOrFail l.attributes) with
        | error e =>
          rw [hfk] at h
          exact Except.noConfusion h
        | ok k2 =>
          rw [hfk] at h
          dsimp only at h
          cases hfl : (if strTruthy (some la.name) = true then
              findAttribute l.attributes ((some la.name).getD "")
            else
              match l.attributes with
              | _ :: b :: _ => Except.ok b
              | _ => Except.ok k2) with
          | error e =>
            rw [hfl] at h
            exact Except.noConfusion h
          | ok la2 =>
            rw [hfl] at h
            dsimp only at h
            cases hfo : (if strTruthy (l.order_attribute.map
                  (fun a => a.name)) = true then
                findAttribute l.attributes
                  ((l.order_attribute.map (fun a => a.name)).getD "")
              else
                match l.attributes with
                | a :: _ => Except.ok a
                | [] => Except.error Err.indexError) with
            | error e =>
              rw [hfo] at h
              exact Except.noConfusion h
            | ok oa2 =>
              rw [hfo] at h
              dsimp only at h
              cases h
              exact ⟨⟨rfl, rfl, rfl⟩, rfl⟩

/-- `Forall₂` implication that may use membership of the left element. -/
theorem forall2_imp_mem {α β : Type} {R S : α → β → Prop} :
    ∀ {as : List α} {bs : List β}, List.Forall₂ R as bs →
    (∀ a ∈ as, ∀ b, R a b → S a b) → List.Forall₂ S as bs := by
  intro as bs h
  induction h with
  | nil => intro _; exact List.Forall₂.nil
  | cons hab htail ih =>
    intro hm
    exact List.Forall₂.cons (hm _ (List.mem_cons_self _ _) _ hab)
      (ih (fun a ha b hr => hm a (List.mem_cons_of_mem _ ha) b hr))

/-- Level-content preservation is transitive. -/
theorem levelPres_trans {a b c : Level} (h1 : levelPres a b)
    (h2 : levelPres b c) : levelPres a c :=
  ⟨h2.1.trans h1.1, h2.2.1.trans h1.2.1, h2.2.2.trans h1.2.2⟩

/-- The ownership rewrite keeps a level's name, label and attribute
names (it only changes attribute back-references). -/
theorem ownLevel_pres (dref : DimRef) (l : Level) :
    levelPres l (ownLevel dref l) := by
  refine ⟨rfl, rfl, ?_⟩
  show (l.attributes.map (ownAttr dref)).map (fun a => a.name) =
    l.attributes.map (fun a => a.name)
  rw [List.map_map]
  rfl

/-- `freshId` does not touch the arena entries. -/
theorem freshId_find (s : LevelStore) (j : Nat) :
    (s.freshId).2.find? j = s.find? j := rfl

/-- A dictionary hit is one of the dictionary's values. -/
theorem dget_mem_dvalues {α : Type} (d : Dict α) (k : String) (v : α)
    (h : dget? d k = some v) : v ∈ dvalues d := by
  unfold dget? at h
  cases hf : d.find? (fun p => p.1 = k) with
  | none =>
    rw [hf] at h
    exact Option.noConfusion h
  | some p =>
    rw [hf] at h
    injection h with h
    subst h
    exact List.mem_map.mpr ⟨p, List.mem_of_find?_eq_some hf, rfl⟩

/-- A value of `dset d k v` is `v` or an old value of `d`. -/
theorem mem_dvalues_dset {α : Type} (d : Dict α) (k : String) (v w : α)
    (h : w ∈ dvalues (dset d k v)) : w = v ∨ w ∈ dvalues d := by
  unfold dset at h
  by_cases hc : d.any (fun p => p.1 = k)
  · rw [if_pos hc] at h
    unfold dvalues at h ⊢
    rw [List.map_map] at h
    obtain ⟨p, hp, he⟩ := List.mem_map.mp h
    by_cases hpk : p.1 = k
    · left
      rw [← he]
      simp [Function.comp, hpk]
    · right
      rw [← he]
      simp only [Function.comp, if_neg hpk]
      exact List.mem_map.mpr ⟨p, hp, rfl⟩
  · rw [if_neg hc] at h
    unfold dvalues at h ⊢
    rw [List.map_append] at h
    rcases List.mem_append.mp h with h1 | h2
    · exact Or.inr h1
    · left
      simp only [List.map_cons, List.map_nil, List.mem_singleton] at h2
      exact h2

/-- Values of the folded name-to-id map come from the accumulator or the
id list. -/
theorem foldl_levelDict_values (store : LevelStore) :
    ∀ (ids : List Nat) (acc : List (String × Nat)) (v : Nat),
    v ∈ dvalues (ids.foldl (fun acc i =>
      match store.find? i with
      | some l => dset acc l.name i
      | none => acc) acc) → v ∈ dvalues acc ∨ v ∈ ids := by
  intro ids
  induction ids with
  | nil =>
    intro acc v h
    exact Or.inl h
  | cons i rest ih =>
    intro acc v h
    rw [List.foldl_cons] at h
    cases hf : store.find? i with
    | none =>
      rw [hf] at h
      rcases ih _ v h with h1 | h2
      · exact Or.inl h1
      · exact Or.inr (List.mem_cons_of_mem _ h2)
    | some l =>
      rw [hf] at h
      rcases ih _ v h with h1 | h2
      · rcases mem_dvalues_dset _ _ _ _ h1 with he | hm
        · refine Or.inr ?_
          rw [he]
          exact List.mem_cons_self i rest
        · exact Or.inl hm
      · exact Or.inr (List.mem_cons_of_mem _ h2)

/-- Every value of `level_dict` is one of the copied level ids. -/
theorem buildLevelDict_values (store : LevelStore) (ids : List Nat) (v : Nat)
    (h : v ∈ dvalues (buildLevelDict store ids)) : v ∈ ids := by
  unfold buildLevelDict at h
  rcases foldl_levelDict_values store ids [] v h with h1 | h2
  · exact absurd h1 (List.not_mem_nil v)
  · exact h2

/-- Values of the hierarchy dictionary built by `Dimension.__init__`
come from the hierarchy list (with the owner id set). -/
theorem foldl_hdict_values (dimId : Nat) :
    ∀ (hs : List HierarchyObj) (acc : Dict HierarchyObj) (v : HierarchyObj),
    v ∈ dvalues (hs.foldl (fun acc h =>
      dset acc h.name { h with dimension := some dimId }) acc) →
    v ∈ dvalues acc ∨ ∃ h ∈ hs, v = { h with dimension := some dimId } := by
  intro hs
  induction hs with
  | nil =>
    intro acc v h
    exact Or.inl h
  | cons h0 rest ih =>
    intro acc v h
    rw [List.foldl_cons] at h
    rcases ih _ v h with h1 | h2
    · rcases mem_dvalues_dset _ _ _ _ h1 with he | hm
      · exact Or.inr ⟨h0, List.mem_cons_self _ _, he⟩
      · exact Or.inl hm
    · obtain ⟨hh, hmem, he⟩ := h2
      exact Or.inr ⟨hh, List.mem_cons_of_mem _ hmem, he⟩

/-- Every level reference of a copied hierarchy is a by-id reference to
a value of `level_dict`. -/
theorem copyHierarchy_refs (store1 : LevelStore) (template : DimensionObj)
    (levelDict : List (String × Nat)) (src hout : HierarchyObj)
    (hc : copyHierarchy store1 template levelDict src = .ok hout) :
    ∀ r ∈ hout.refs, ∃ i, r = LevelRef.byId i ∧ i ∈ dvalues levelDict := by
  unfold copyHierarchy at hc
  cases h1 : src.refs.mapM (resolveRef store1 template) with
  | error e =>
    rw [h1] at hc
    exact Except.noConfusion hc
  | ok lvls =>
    rw [h1] at hc
    dsimp only at hc
    cases h2 : lvls.mapM (fun l =>
        match dget? levelDict l.name with
        | some i => Except.ok i
        | none => Except.error Err.keyError) with
    | error e =>
      rw [h2] at hc
      exact Except.noConfusion hc
    | ok ids =>
      rw [h2] at hc
      dsimp only at hc
      cases hc
      intro r hr
      replace hr : r ∈ ids.map LevelRef.byId := hr
      obtain ⟨i, hi, he⟩ := List.mem_map.mp hr
      refine ⟨i, he.symm, ?_⟩
      obtain ⟨l, hl, hfl⟩ := mapM_ok_mem _ lvls ids h2 i hi
      cases hd : dget? levelDict l.name with
      | none =>
        rw [hd] at hfl
        exact Except.noConfusion hfl
      | some j =>
        rw [hd] at hfl
        injection hfl with hji
        subst hji
        exact dget_mem_dvalues _ _ _ hd

/-- The ownership pass never changes the allocation counter. -/
theorem claimLevels_nextId (dref : DimRef) :
    ∀ (ids : List Nat) (s : LevelStore),
    (claimLevels dref ids s).nextId = s.nextId := by
  intro ids
  induction ids with
  | nil =>
    intro s
    rfl
  | cons i rest ih =>
    intro s
    unfold claimLevels at ih ⊢
    rw [List.foldl_cons, ih]
    cases hf : s.find? i with
    | none => rfl
    | some l => rfl

/-- The ownership pass leaves ids outside its list untouched. -/
theorem claimLevels_frame (dref : DimRef) :
    ∀ (ids : List Nat) (s : LevelStore) (j : Nat),
    (∀ i ∈ ids, j ≠ i) →
    (claimLevels dref ids s).find? j = s.find? j := by
  intro ids
  induction ids with
  | nil =>
    intro s j _
    rfl
  | cons i rest ih =>
    intro s j hj
    unfold claimLevels at ih ⊢
    rw [List.foldl_cons,
      ih _ j (fun i2 hi2 => hj i2 (List.mem_cons_of_mem _ hi2))]
    cases hf : s.find? i with
    | none => rfl
    | some l => exact find?_set_other s i j _ (hj i (List.mem_cons_self i rest))

/-- The ownership pass preserves every live level's content. -/
theorem claimLevels_find_pres (dref : DimRef) :
    ∀ (ids : List Nat) (s : LevelStore) (j : Nat) (l : Level),
    s.find? j = some l →
    ∃ l2, (claimLevels dref ids s).find? j = some l2 ∧ levelPres l l2 := by
  intro ids
  induction ids with
  | nil =>
    intro s j l h
    exact ⟨l, h, ⟨rfl, rfl, rfl⟩⟩
  | cons i rest ih =>
    intro s j l h
    unfold claimLevels at ih ⊢
    rw [List.foldl_cons]
    cases hf : s.find? i with
    | none =>
      exact ih s j l h
    | some li =>
      by_cases hji : j = i
      · subst hji
        rw [h] at hf
        injection hf with hf
        subst hf
        have h2 : (s.set j (ownLevel dref l)).find? j =
            some (ownLevel dref l) := find?_set_self s j _ l h
        obtain ⟨l2, hl2, hp⟩ := ih _ j _ h2
        exact ⟨l2, hl2, levelPres_trans (ownLevel_pres dref l) hp⟩
      · have h2 : (s.set i (ownLevel dref li)).find? j = some l := by
          rw [find?_set_other s i j _ hji]
          exact h
        exact ih _ j l h2

/-- Full specification of the level deep copy: it keeps the store
well-formed, only grows the counter, leaves every old id untouched,
returns only fresh live ids, and pairs each source level with a
content-equal copy. -/
theorem deepcopyLevelIds_spec :
    ∀ (ids : List Nat) (store store1 : LevelStore) (nis : List Nat),
    store.wf → (∀ i ∈ ids, i < store.nextId) →
    deepcopyLevelIds store ids = .ok (nis, store1) →
    store1.wf ∧ store.nextId ≤ store1.nextId ∧
    (∀ j, j < store.nextId → store1.find? j = store.find? j) ∧
    (∀ ni ∈ nis, store.nextId ≤ ni ∧ ni < store1.nextId) ∧
    (∀ ni ∈ nis, ∃ l2, store1.find? ni = some l2) ∧
    List.Forall₂ (fun i ni => ∃ l0 l2, store.find? i = some l0 ∧
      store1.find? ni = some l2 ∧ levelPres l0 l2) ids nis := by
  intro ids
  induction ids with
  | nil =>
    intro store store1 nis hwf _ h
    unfold deepcopyLevelIds at h
    cases h
    exact ⟨hwf, Nat.le_refl _, fun j _ => rfl,
      fun ni hni => absurd hni (List.not_mem_nil ni),
      fun ni hni => absurd hni (List.not_mem_nil ni),
      List.Forall₂.nil⟩
  | cons i rest ih =>
    intro store store1 nis hwf hlive h
    unfold deepcopyLevelIds at h
    cases hfi : store.find? i with
    | none =>
      rw [hfi] at h
      exact Except.noConfusion h
    | some l =>
      rw [hfi] at h
      dsimp only at h
      cases hdc : l.deepcopy with
      | error e =>
        rw [hdc] at h
        exact Except.noConfusion h
      | ok l2 =>
        rw [hdc] at h
        dsimp only at h
        cases hA : store.alloc l2 with
        | mk ni storeA =>
          rw [hA] at h
          dsimp only at h
          have hni : store.nextId = ni := congrArg Prod.fst hA
          have hsA : (store.alloc l2).2 = storeA := congrArg Prod.snd hA
          have hnA : storeA.nextId = store.nextId + 1 := by
            rw [← hsA]
            rfl
          have wfA : storeA.wf := hsA ▸ wf_alloc store l2 hwf
          have liveA : ∀ i2 ∈ rest, i2 < storeA.nextId := by
            intro i2 hi2
            rw [hnA]
            exact Nat.lt_succ_of_lt (hlive i2 (List.mem_cons_of_mem _ hi2))
          cases hrest : deepcopyLevelIds storeA rest with
          | error e =>
            rw [hrest] at h
            exact Except.noConfusion h
          | ok pr =>
            cases pr with
            | mk nis2 store2 =>
              rw [hrest] at h
              dsimp only at h
              cases h
              obtain ⟨wf1, le1, frame1, bounds1, ex1, f21⟩ :=
                ih storeA store1 nis2 wfA liveA hrest
              have hfA : ∀ j, j < store.nextId →
                  storeA.find? j = store.find? j := by
                intro j hj
                rw [← hsA]
                exact find?_alloc_lt store l2 j hj
              have hfAself : storeA.find? store.nextId = some l2 := by
                rw [← hsA]
                exact find?_alloc_self store l2 hwf
              have hniv : store1.find? ni = some l2 := by
                rw [← hni]
                rw [frame1 store.nextId (by omega)]
                exact hfAself
              refine ⟨wf1, by omega, ?_, ?_, ?_, ?_⟩
              · intro j hj
                rw [frame1 j (by omega)]
                exact hfA j hj
              · intro x hx
                rcases List.mem_cons.mp hx with h1 | h2
                · subst h1
                  constructor
                  · omega
                  · have := le1
                    omega
                · have hb := bounds1 x h2
                  constructor
                  · omega
                  · exact hb.2
              · intro x hx
                rcases List.mem_cons.mp hx with h1 | h2
                · subst h1
                  exact ⟨l2, hniv⟩
                · exact ex1 x h2
              · refine List.Forall₂.cons
                  ⟨l, l2, hfi, hniv, (deepcopy_pres l l2 hdc).1⟩ ?_
                refine forall2_imp_mem f21 ?_
                intro i2 hi2 ni2 hrel
                obtain ⟨l0, l3, h0, h1f, hp⟩ := hrel
                refine ⟨l0, l3, ?_, h1f, hp⟩
                rw [← hfA i2 (hlive i2 (List.mem_cons_of_mem _ hi2))]
                exact h0

/-- C7: on success, `create_dimension` with `template` metadata naming a
pool entry gives the new dimension fresh deep copies of the template's
levels (every new level id is outside the pre-existing arena), leaves
every pre-existing level object — in particular each of the template's —
unchanged, pairs each template level with a content-equal copy, points
every hierarchy level reference of the new dimension at the new copies
(never at the template's level objects), and mutating a cloned level's
label afterwards still leaves every pre-existing level unchanged; a
template name absent from the pool raises `TemplateRequired` carrying
that name. -/
theorem c7_template_copy (store : LevelStore) (metadata : DimensionMetadata)
    (pool : Dict DimensionObj) (name : Option String) (tname : String)
    (hT : metadata.template = some tname)
    (hwf : store.wf)
    (hLv : metadata.levels = none)
    (hH1 : metadata.hierarchy = none)
    (hH2 : metadata.hierarchies = none) :
    (dget? pool tname = none →
      create_dimension store metadata pool name =
        .error (.templateRequired tname)) ∧
    (∀ tmpl d store2, dget? pool tname = some tmpl →
      (∀ i ∈ tmpl.levelIds, i < store.nextId) →
      tmpl.levelIds ≠ [] →
      create_dimension store metadata pool name = .ok (d, store2) →
      (∀ ni ∈ d.levelIds, store.nextId ≤ ni) ∧
      (∀ j, j < store.nextId → store2.find? j = store.find? j) ∧
      List.Forall₂ (fun i ni => ∃ l0 l2, store.find? i = some l0 ∧
        store2.find? ni = some l2 ∧ levelPres l0 l2)
        tmpl.levelIds d.levelIds ∧
      (∀ hob ∈ dvalues d.hierarchies, ∀ r ∈ hob.refs,
        ∃ ni ∈ d.levelIds, r = LevelRef.byId ni) ∧
      (∀ ni ∈ d.levelIds, ∀ v : Option String, ∀ j, j < store.nextId →
        (store2.setLabel ni v).find? j = store.find? j)) := by
  constructor
  · intro hmiss
    unfold create_dimension templateStep
    rw [hT]
    dsimp only
    rw [hmiss]
  · intro tmpl d store2 hpool hlive htne h
    unfold create_dimension at h
    unfold templateStep at h
    rw [hT] at h
    dsimp only at h
    rw [hpool] at h
    dsimp only at h
    cases hdc : deepcopyLevelIds store tmpl.levelIds with
    | error e =>
      rw [hdc] at h
      exact Except.noConfusion h
    | ok pr =>
      cases pr with
      | mk newIds store1 =>
        rw [hdc] at h
        dsimp only at h
        obtain ⟨wf1, le1, frame1, bounds1, ex1, f21⟩ :=
          deepcopyLevelIds_spec tmpl.levelIds store store1 newIds hwf hlive hdc
        cases hch : (dvalues tmpl.hierarchies).mapM
            (copyHierarchy store1 tmpl (buildLevelDict store1 newIds)) with
        | error e =>
          rw [hch] at h
          exact Except.noConfusion h
        | ok hiers =>
          rw [hch] at h
          dsimp only at h
          rw [hLv] at h
          rw [if_neg (by decide :
            ¬ (listTruthy (none : Option (List LevelMetadata)) = true))] at h
          dsimp only at h
          have hlen : tmpl.levelIds.length = newIds.length :=
            List.Forall₂.length_eq f21
          have hniE : newIds.isEmpty = false := by
            cases hne2 : newIds with
            | nil =>
              rw [hne2] at hlen
              exact absurd (List.length_eq_zero.mp hlen) htne
            | cons a as => rfl
          rw [if_neg (by rw [hniE]; exact Bool.false_ne_true)] at h
          dsimp only at h
          rw [hH1, hH2] at h
          rw [if_neg (by decide :
            ¬ (((none : Option (List String)).isSome &&
              (none : Option (List HierarchyMetadata)).isSome) = true))] at h
          rw [if_neg (by decide :
            ¬ (listTruthy (none : Option (List String)) = true))] at h
          dsimp only at h
          cases hn : (if strTruthy name = true then Except.ok (name.getD "")
              else
                match metadata.name with
                | some n => Except.ok n
                | none => Except.error Err.keyError) with
          | error e =>
            rw [hn] at h
            exact Except.noConfusion h
          | ok dimName =>
            rw [hn] at h
            dsimp only at h
            rw [show store1.freshId = (store1.nextId,
              (⟨store1.entries, store1.nextId + 1⟩ : LevelStore)) from rfl] at h
            dsimp only at h
            unfold mkDimensionObj at h
            rw [if_neg (by rw [hniE]; exact Bool.false_ne_true)] at h
            cases hlm : newIds.mapM (fun i =>
                match (⟨store1.entries, store1.nextId + 1⟩ :
                    LevelStore).find? i with
                | some l => Except.ok l
                | none => Except.error Err.keyError) with
            | error e =>
              rw [hlm] at h
              exact Except.noConfusion h
            | ok levels =>
              rw [hlm] at h
              dsimp only at h
              cases h
              have hframe : ∀ (dref : DimRef) (st4 : LevelStore),
                  (∀ j2, st4.find? j2 = store1.find? j2) →
                  ∀ j, j < store.nextId →
                  (claimLevels dref newIds st4).find? j = store.find? j := by
                intro dref st4 h44 j hj
                rw [claimLevels_frame dref newIds st4 j
                  (fun i2 hi2 he => absurd (bounds1 i2 hi2).1 (by omega))]
                rw [h44 j]
                exact frame1 j hj
              have hcontent : ∀ (dref : DimRef) (st4 : LevelStore),
                  (∀ j2, st4.find? j2 = store1.find? j2) →
                  List.Forall₂ (fun i ni => ∃ l0 l2,
                    store.find? i = some l0 ∧
                    (claimLevels dref newIds st4).find? ni = some l2 ∧
                    levelPres l0 l2) tmpl.levelIds newIds := by
                intro dref st4 h44
                refine forall2_imp_mem f21 ?_
                intro i2 _ ni2 hrel
                obtain ⟨l0, l3, h0, h1f, hp⟩ := hrel
                have h4f : st4.find? ni2 = some l3 := by
                  rw [h44 ni2]
                  exact h1f
                obtain ⟨l4, hl4, hp2⟩ :=
                  claimLevels_find_pres dref newIds st4 ni2 l3 h4f
                exact ⟨l0, l4, h0, hl4, levelPres_trans hp hp2⟩
              refine ⟨?_, ?_, ?_, ?_, ?_⟩
              · intro ni hni
                exact (bounds1 ni hni).1
              · intro j hj
                exact hframe _ (⟨store1.entries, store1.nextId + 1⟩ :
                  LevelStore) (fun j2 => rfl) j hj
              · exact hcontent _ (⟨store1.entries, store1.nextId + 1⟩ :
                  LevelStore) (fun j2 => rfl)
              · intro hob hmem r hr
                replace hmem : hob ∈ dvalues
                    ((if hiers.isEmpty then
                        [({ name := "default",
                            refs := newIds.map LevelRef.byId } : HierarchyObj)]
                      else hiers).foldl (fun acc h2 =>
                        dset acc h2.name
                          { h2 with dimension := some store1.nextId })
                      ([] : Dict HierarchyObj)) := hmem
                rcases foldl_hdict_values store1.nextId
                    (if hiers.isEmpty then
                      [({ name := "default",
                          refs := newIds.map LevelRef.byId } : HierarchyObj)]
                    else hiers) [] hob hmem with h1 | h2
                · exact absurd h1 (List.not_mem_nil _)
                · obtain ⟨h0, hh0, heq⟩ := h2
                  have hrefs : hob.refs = h0.refs := by rw [heq]
                  rw [hrefs] at hr
                  by_cases hie : hiers.isEmpty
                  · rw [if_pos hie] at hh0
                    have h0e := List.mem_singleton.mp hh0
                    rw [h0e] at hr
                    replace hr : r ∈ newIds.map LevelRef.byId := hr
                    obtain ⟨i2, hi2, he2⟩ := List.mem_map.mp hr
                    exact ⟨i2, hi2, he2.symm⟩
                  · rw [if_neg hie] at hh0
                    obtain ⟨src, hsrc0, hok⟩ :=
                      mapM_ok_mem _ (dvalues tmpl.hierarchies) hiers hch h0 hh0
                    obtain ⟨i2, he2, hmem2⟩ :=
                      copyHierarchy_refs store1 tmpl
                        (buildLevelDict store1 newIds) src h0 hok r hr
                    exact ⟨i2, buildLevelDict_values store1 newIds i2 hmem2,
                      he2⟩
              · intro ni hni v j hj
                rw [find?_setLabel_other _ ni j v
                  (fun he => absurd (bounds1 ni hni).1 (by omega))]
                exact hframe _ (⟨store1.entries, store1.nextId + 1⟩ :
                  LevelStore) (fun j2 => rfl) j hj

/-- Witness for C7 on the concrete two-level template fixture: mutating
the label of cloned level 2 leaves template level 0 untouched, and a
missing template name raises `TemplateRequired`. -/
theorem c7_template_copy_witness :
    ((c7Pair.2.setLabel 2 (some "mutated")).find? 0 = c7Store.find? 0) ∧
    create_dimension c7Store { template := some "missing" } c7Pool
      (some "newdate") = .error (.templateRequired "missing") := by
  constructor
  · have hmain := c7_template_copy c7Store c7Meta c7Pool (some "newdate")
      "datetmpl" rfl
      (by show ∀ p ∈ c7Store.entries, p.1 < c7Store.nextId; decide)
      rfl rfl rfl
    have hrun : create_dimension c7Store c7Meta c7Pool (some "newdate") =
        .ok (c7Pair.1, c7Pair.2) := rfl
    have h2 := hmain.2 c7Template c7Pair.1 c7Pair.2 (by decide) (by decide)
      (by decide) hrun
    exact h2.2.2.2.2 2 (by decide) (some "mutated") 0 (by decide)
  · have hmain := c7_template_copy c7Store { template := some "missing" }
      c7Pool (some "newdate") "missing" rfl
      (by show ∀ p ∈ c7Store.entries, p.1 < c7Store.nextId; decide)
      rfl rfl rfl
    exact hmain.1 (by decide)

end Cubes
